import Mathlib

/-!
Verification of the youtubeclipper core (`src/youtubeclipper/clipper.py`)
against its natural-language specification.

The Python module is shallowly embedded below.  Pure helpers
(`parse_time`, `parse_clip_ranges`, `_available_heights`,
`_format_selector`) become Lean functions.  The effectful parts
(`_run_ffmpeg`, `clip_url`) are embedded by passing the external world
explicitly: the two external engines (yt-dlp and ffmpeg) are modelled as
oracle functions bundled in an `Env`, and the output directory is a small
association-list file system threaded through the run.  Python's
arbitrary-precision `int` is `Int`; fallible code returns `Except`.
-/

set_option linter.unusedVariables false
set_option linter.unnecessarySeqFocus false

/-- Error kinds, one constructor per `raise ClipperError(...)` site in
`clipper.py`, named after the spec's error taxonomy.  Constructor
arguments model the data interpolated into the human-readable message. -/
inductive ClipperError where
  | invalidTimestamp : ClipperError
  | negativeTimestamp : ClipperError
  | malformedRange (item : List Char) : ClipperError
  | nonPositiveDuration : ClipperError
  | noRangesProvided : ClipperError
  | missingDependency (missing : List String) : ClipperError
  | invalidQuality : ClipperError
  | metadataFetchFailed : ClipperError
  | metadataParseFailed : ClipperError
  | qualityUnavailable (available : List Int) : ClipperError
  | qualityUnavailableFastPath (fast : List Int) (all : List Int) : ClipperError
  | downloadFailed : ClipperError
  | noSourceFileProduced : ClipperError
  | outputFormatMismatch (sourceExt : String) (outputFormat : String) : ClipperError
  | outputAlreadyExists (path : String) : ClipperError
  | extractionFailed : ClipperError
  deriving DecidableEq

/-- The characters removed by Python's `str.strip()` (ASCII whitespace). -/
def isPySpace (c : Char) : Bool :=
  c == ' ' || c == '\t' || c == '\n' || c == '\r' || c == '\x0b' || c == '\x0c'

/-- Python `str.strip()` on a character list. -/
def pyStrip (l : List Char) : List Char :=
  ((l.dropWhile isPySpace).reverse.dropWhile isPySpace).reverse

/-- Numeric value of a decimal digit character. -/
def charVal (c : Char) : Nat := c.toNat - '0'.toNat

/-- Value of a decimal digit string, most significant digit first. -/
def digitsValAux (acc : Nat) : List Char → Nat
  | [] => acc
  | c :: cs => digitsValAux (acc * 10 + charVal c) cs

/-- Value of a decimal digit string, most significant digit first. -/
def digitsVal (l : List Char) : Nat := digitsValAux 0 l

/-- Continuation of Python `int()` digit parsing after the first digit:
further digits, with single underscores permitted between digits. -/
def udigitsGo (acc : Nat) : List Char → Option Nat
  | [] => some acc
  | [c] => if c.isDigit then some (acc * 10 + charVal c) else none
  | c :: c2 :: rest =>
    if c.isDigit then udigitsGo (acc * 10 + charVal c) (c2 :: rest)
    else if c = '_' ∧ c2.isDigit = true then udigitsGo (acc * 10 + charVal c2) rest
    else none

/-- Python `int()` unsigned digit grammar: a digit followed by digits with
single underscores permitted between digits. -/
def parseUDigits : List Char → Option Nat
  | [] => none
  | c :: rest => if c.isDigit then udigitsGo (charVal c) rest else none

/-- Python `int(str)` in base 10: an optional sign followed by digits
(single underscores permitted between digits).  `int()` also tolerates
surrounding whitespace, which is immaterial here because the only caller,
`parse_time`, strips its argument first; the model (restricted to ASCII
digit strings, the only ones these claims are about) omits that no-op. -/
def pyIntParse (l : List Char) : Option Int :=
  match l with
  | [] => none
  | c :: rest =>
    if c = '+' then (parseUDigits rest).map (fun n => (n : Int))
    else if c = '-' then (parseUDigits rest).map (fun n => -(n : Int))
    else (parseUDigits (c :: rest)).map (fun n => (n : Int))

/-- `parse_time` from clipper.py: strip, reject colons, parse as a Python
base-10 integer, reject negatives. -/
def parse_time (value : String) : Except ClipperError Int :=
  let v := pyStrip value.data
  if ':' ∈ v then .error .invalidTimestamp
  else
    match pyIntParse v with
    | none => .error .invalidTimestamp
    | some seconds => if seconds < 0 then .error .negativeTimestamp else .ok seconds

/-- Python `str.split(sep)` for a single-character separator (keeps empty
segments; splitting the empty string yields one empty segment). -/
def splitOnChar (sep : Char) : List Char → List (List Char)
  | [] => [[]]
  | c :: rest =>
    if c = sep then [] :: splitOnChar sep rest
    else
      match splitOnChar sep rest with
      | [] => [[c]]
      | seg :: segs => (c :: seg) :: segs

/-- The list comprehension in `parse_clip_ranges`: split on commas, strip
each segment, keep the non-empty ones, in input order. -/
def rangeItems (ranges : String) : List (List Char) :=
  ((splitOnChar ',' ranges.data).map pyStrip).filter (fun i => !i.isEmpty)

/-- `_validate_range` from clipper.py. -/
def _validate_range (tstart tend : Int) : Except ClipperError Unit :=
  if tend ≤ tstart then .error .nonPositiveDuration else .ok ()

/-- The per-segment body of the loop in `parse_clip_ranges`: require a
`-`, split at the first one (`item.split("-", 1)`), parse both sides with
`parse_time`, validate the duration. -/
def parseRangeItem (item : List Char) : Except ClipperError (Int × Int) :=
  if '-' ∈ item then
    match parse_time (String.mk (item.takeWhile (fun c => c != '-'))) with
    | .error e => .error e
    | .ok tstart =>
      match parse_time (String.mk ((item.dropWhile (fun c => c != '-')).drop 1)) with
      | .error e => .error e
      | .ok tend =>
        match _validate_range tstart tend with
        | .error e => .error e
        | .ok _ => .ok (tstart, tend)
  else .error (.malformedRange item)

/-- The start substring `item.split("-", 1)[0]`. -/
def rangeStartText (item : List Char) : List Char :=
  item.takeWhile (fun c => c != '-')

/-- The end substring `item.split("-", 1)[1]`. -/
def rangeEndText (item : List Char) : List Char :=
  (item.dropWhile (fun c => c != '-')).drop 1

/-- The loop in `parse_clip_ranges`: parse segments left to right,
stopping at the first failing segment. -/
def parseRangesList : List (List Char) → Except ClipperError (List (Int × Int))
  | [] => .ok []
  | item :: rest =>
    match parseRangeItem item with
    | .error e => .error e
    | .ok r =>
      match parseRangesList rest with
      | .error e => .error e
      | .ok rs => .ok (r :: rs)

/-- `parse_clip_ranges` from clipper.py. -/
def parse_clip_ranges (ranges : String) : Except ClipperError (List (Int × Int)) :=
  if (rangeItems ranges).isEmpty then .error .noRangesProvided
  else parseRangesList (rangeItems ranges)

/-- String literal pool (named so literals sit only in definitions). -/
def mp4S : String := "mp4"

/-- The string "none" (yt-dlp's marker for an absent video codec). -/
def noneS : String := "none"

/-- The H.264 family tag. -/
def avc1S : String := "avc1"

/-- The download template stem `source.` used by `_download_source`. -/
def sourcePre : String := "source."

/-- Dependency name. -/
def ffmpegS : String := "ffmpeg"

/-- Dependency name. -/
def ytdlpS : String := "yt-dlp"

/-- Artifact name fragment `clip_`. -/
def clipPre : String := "clip_"

/-- Artifact name fragment `_`. -/
def undS : String := "_"

/-- Artifact name fragment `.`. -/
def dotS : String := "."

/-- Path separator. -/
def slashS : String := "/"

/-- Python `str.startswith(pre)`: `pre.data` is a prefix of `s.data`
(computable in the kernel, unlike `String.startsWith`). -/
def pyStartsWith (s pre : String) : Bool := pre.data.isPrefixOf s.data

/-- One entry of the yt-dlp metadata `formats` list: the three keys
`_available_heights` reads, each possibly absent. -/
structure Fmt where
  height : Option Int
  vcodec : Option String
  ext : Option String
  deriving DecidableEq

/-- `vcodec in (None, "none")` is the *skip* condition; this is its
negation: the format has a video codec that is present. -/
def vcodec_present (v : Option String) : Bool :=
  match v with
  | none => false
  | some s => s != noneS

/-- A format passes the `if not height or vcodec in (None, "none")`
filter: truthy (non-zero, non-absent) height and a present video codec. -/
def contributes_any (f : Fmt) : Bool :=
  (match f.height with
   | some h => decide (h ≠ 0)
   | none => false) && vcodec_present f.vcodec

/-- A format additionally survives `fmt.get("ext") != "mp4"` and
`str(vcodec).startswith("avc1")`: mp4 container, H.264-family codec. -/
def contributes_fast (f : Fmt) : Bool :=
  contributes_any f &&
    (match f.ext with
     | some e => e == mp4S
     | none => false) &&
    (match f.vcodec with
     | some v => pyStartsWith v avc1S
     | none => false)

/-- Python `sorted(set(...))`: the ascending duplicate-free sequence of
the collected heights. -/
def sortedHeights (l : List Int) : List Int :=
  List.insertionSort (· ≤ ·) l.dedup

/-- The classification loop of `_available_heights`, applied to an
already-fetched `formats` list (the `_inspect_formats` subprocess call is
modelled by the metadata oracle in `Env`).  Returns
`(sorted(h264_mp4), sorted(all_video))`. -/
def _available_heights (formats : List Fmt) : List Int × List Int :=
  (sortedHeights (formats.filterMap (fun f => if contributes_fast f then f.height else none)),
   sortedHeights (formats.filterMap (fun f => if contributes_any f then f.height else none)))

/-- Selector fragment of the re-encode f-string before the height. -/
def selReencodeA : String := "bv*[height="

/-- Selector fragment of the re-encode f-string between the heights. -/
def selReencodeB : String := "]+ba/b[height="

/-- Closing bracket of both selector templates. -/
def selBracketS : String := "]"

/-- Selector fragment of the fast-path template before the height. -/
def selFastA : String := "bv*[vcodec^=avc1][ext=mp4][height="

/-- Selector fragment of the fast-path template between the heights. -/
def selFastB : String := "]+ba[acodec^=mp4a]/b[ext=mp4][height="

/-- The codec-constraint context around `avc1` in the fast template. -/
def selFastPreAvc : String := "bv*[vcodec^="

/-- The rest of the fast template head after the `avc1` tag. -/
def selFastPostAvc : String := "][ext=mp4][height="

/-- The closed codec constraint of the fast template head. -/
def selFastCodec : String := "bv*[vcodec^=avc1]"

/-- The container constraint of the fast-path selector. -/
def extMp4S : String := "[ext=mp4]"

/-- The fast template head after its container constraint. -/
def selFastPostExt : String := "[height="

/-- `_format_selector` from clipper.py: the yt-dlp format selector string
and the optional `--merge-output-format` container. -/
def _format_selector (height : Int) (reencode : Bool) : String × Option String :=
  if reencode then
    (selReencodeA ++ toString height ++ selReencodeB ++ toString height ++ selBracketS, none)
  else
    (selFastA ++ toString height ++ selFastB ++ toString height ++ selBracketS, some mp4S)

/-- The output-directory file system: an association list from path to
file content, newest first. -/
abbrev FS := List (String × String)

/-- One invocation of the encode engine, as assembled by `_run_ffmpeg`
(the `-ss`/`-t`/codec flags are determined by these fields). -/
structure FfmpegCall where
  source : String
  startTime : Int
  endTime : Int
  output_path : String
  reencode : Bool
  deriving DecidableEq

/-- Result of one `_run_ffmpeg` call: the engine invocations made, the
resulting file system, and the error if any. -/
structure ExtractOutcome where
  calls : List FfmpegCall
  fs : FS
  error : Option ClipperError
  deriving DecidableEq

/-- `_run_ffmpeg` from clipper.py.  `engine` is the external encode
engine: `none` models a non-zero exit, `some content` a successful run
producing the output file.  The existence check precedes any engine
invocation, and a failed run leaves the file system unchanged. -/
def _run_ffmpeg (engine : FfmpegCall → Option String) (fs : FS) (source : String)
    (startTime endTime : Int) (output_path : String) (reencode : Bool) : ExtractOutcome :=
  if (List.lookup output_path fs).isSome then
    ⟨[], fs, some (.outputAlreadyExists output_path)⟩
  else
    match engine ⟨source, startTime, endTime, output_path, reencode⟩ with
    | none => ⟨[⟨source, startTime, endTime, output_path, reencode⟩], fs, some .extractionFailed⟩
    | some content => ⟨[⟨source, startTime, endTime, output_path, reencode⟩], (output_path, content) :: fs, none⟩

/-- `f"clip_{start}_{end}_{run_stamp}.{output_format}"`. -/
def clipName (startTime endTime : Int) (run_stamp output_format : String) : String :=
  clipPre ++ toString startTime ++ undS ++ toString endTime ++ undS ++ run_stamp ++ dotS ++ output_format

/-- `outdir / name`. -/
def pathJoin (dir name : String) : String := dir ++ slashS ++ name

/-- The output path clip_url computes for one range. -/
def artifactPath (outdir run_stamp output_format : String) (r : Int × Int) : String :=
  pathJoin outdir (clipName r.1 r.2 run_stamp output_format)

/-- `pathlib.Path(name).suffix`: the extension from the last dot, empty
when the dot is absent, leading, or trailing. -/
def pySuffix (name : String) : String :=
  let l := name.data
  if '.' ∈ l then
    let post := l.reverse.takeWhile (fun c => c != '.')
    let i := l.length - 1 - post.length
    if 0 < i ∧ i < l.length - 1 then String.mk ('.' :: post.reverse) else String.mk []
  else String.mk []

/-- `str.lstrip(".")`. -/
def lstripDot (s : String) : String := String.mk (s.data.dropWhile (fun c => c == '.'))

/-- `source.suffix.lstrip(".")`: the container extension of the
downloaded file. -/
def sourceExt (name : String) : String := lstripDot (pySuffix name)

/-- Lexicographic string order as a Bool, for Python `sorted`. -/
def strLe (a b : String) : Bool := a == b || decide (a < b)

/-- Insertion step of Python `sorted` on strings. -/
def insertStrB (x : String) : List String → List String
  | [] => [x]
  | y :: ys => if strLe x y then x :: y :: ys else y :: insertStrB x ys

/-- Python `sorted` on strings (insertion sort, ascending). -/
def sortStrB (l : List String) : List String := l.foldr insertStrB []

/-- `sorted(workdir.glob("source.*"))` from `_download_source`, applied
to the files the retrieval engine left in the workspace. -/
def sourceCandidates (files : List String) : List String :=
  sortStrB (files.filter (fun f => pyStartsWith f sourcePre))

/-- Outcome of the metadata query (`_inspect_formats`): non-zero exit,
unparsable JSON, or a parsed `formats` list. -/
inductive MetaResult where
  | fetchFail : MetaResult
  | parseFail : MetaResult
  | ok (formats : List Fmt) : MetaResult

/-- The external world of one `clip_url` run: PATH lookups, the run
timestamp `datetime.now()` yields, and the two engines.  The download
oracle receives the format plan and returns the workspace contents
(`none` models a non-zero yt-dlp exit). -/
structure Env where
  ffmpeg_on_path : Bool
  ytdlp_on_path : Bool
  run_stamp : String
  metadata : MetaResult
  download : String × Option String → Option (List String)
  ffmpeg : FfmpegCall → Option String

/-- The parameters of the per-range extraction loop in `clip_url`. -/
structure LoopCtx where
  engine : FfmpegCall → Option String
  source : String
  reencode : Bool
  outdir : String
  run_stamp : String
  output_format : String

/-- The output path of a range in this loop. -/
def LoopCtx.path (C : LoopCtx) (r : Int × Int) : String :=
  artifactPath C.outdir C.run_stamp C.output_format r

/-- The engine invocation for a range in this loop. -/
def LoopCtx.call (C : LoopCtx) (r : Int × Int) : FfmpegCall :=
  ⟨C.source, r.1, r.2, C.path r, C.reencode⟩

/-- The `for start, end in ranges` loop of `clip_url`: per range, compute
the output path, run `_run_ffmpeg`, stop at the first failure, otherwise
append the path and continue. -/
def extractRanges (C : LoopCtx) : FS → List (Int × Int) →
    FS × List FfmpegCall × Except ClipperError (List String)
  | fs, [] => (fs, [], .ok [])
  | fs, r :: rest =>
    match _run_ffmpeg C.engine fs C.source r.1 r.2 (C.path r) C.reencode with
    | ⟨cs0, fs0, some e⟩ => (fs0, cs0, .error e)
    | ⟨cs0, fs0, none⟩ =>
      match extractRanges C fs0 rest with
      | (fs', cs, .ok outs) => (fs', cs0 ++ cs, .ok (C.path r :: outs))
      | (fs', cs, .error e) => (fs', cs0 ++ cs, .error e)

/-- The file-system state after running the loop over a list of ranges,
assuming every `_run_ffmpeg` step completes without an existence failure:
each engine success prepends its artifact. -/
def LoopCtx.after (C : LoopCtx) : FS → List (Int × Int) → FS
  | fs, [] => fs
  | fs, r :: rest =>
    LoopCtx.after C
      (match C.engine (C.call r) with
       | some c => (C.path r, c) :: fs
       | none => fs) rest

/-- One `_run_ffmpeg` step succeeds from state `fs` on range `r`: no file
at the output path and the engine exits cleanly. -/
def LoopCtx.stepOk (C : LoopCtx) (fs : FS) (r : Int × Int) : Prop :=
  List.lookup (C.path r) fs = none ∧ C.engine (C.call r) ≠ none

/-- The error a failing `_run_ffmpeg` step raises from state `fs`. -/
def LoopCtx.stepErr (C : LoopCtx) (fs : FS) (r : Int × Int) : ClipperError :=
  if List.lookup (C.path r) fs = none then .extractionFailed
  else .outputAlreadyExists (C.path r)

/-- The engine invocations a failing `_run_ffmpeg` step makes: none when
the output already exists, one when the engine itself fails. -/
def LoopCtx.stepFailCalls (C : LoopCtx) (fs : FS) (r : Int × Int) : List FfmpegCall :=
  if List.lookup (C.path r) fs = none then [C.call r] else []

/-- Result of the body of the `with TemporaryDirectory` block. -/
structure InnerResult where
  result : Except ClipperError (List String)
  fs : FS
  calls : List FfmpegCall
  downloadAttempted : Bool

/-- The body of the `with tempfile.TemporaryDirectory(...)` block of
`clip_url`: resolve availability, check the requested height, download,
check the fast-path container, extract all ranges. -/
def clip_job (env : Env) (fs : FS) (ranges : List (Int × Int)) (outdir : String)
    (reencode : Bool) (output_format : String) (quality_height : Int) : InnerResult :=
  match env.metadata with
  | .fetchFail => ⟨.error .metadataFetchFailed, fs, [], false⟩
  | .parseFail => ⟨.error .metadataParseFailed, fs, [], false⟩
  | .ok formats =>
    if quality_height ∈
        (if reencode then (_available_heights formats).2 else (_available_heights formats).1) then
      match env.download (_format_selector quality_height reencode) with
      | none => ⟨.error .downloadFailed, fs, [], true⟩
      | some files =>
        match sourceCandidates files with
        | [] => ⟨.error .noSourceFileProduced, fs, [], true⟩
        | src :: _ =>
          if reencode = false ∧ sourceExt src ≠ output_format then
            ⟨.error (.outputFormatMismatch (sourceExt src) output_format), fs, [], true⟩
          else
            match extractRanges ⟨env.ffmpeg, src, reencode, outdir, env.run_stamp, output_format⟩ fs ranges with
            | (fs', cs, res) => ⟨res, fs', cs, true⟩
    else
      if reencode then
        ⟨.error (.qualityUnavailable (_available_heights formats).2), fs, [], false⟩
      else
        ⟨.error (.qualityUnavailableFastPath (_available_heights formats).1
            (_available_heights formats).2), fs, [], false⟩

/-- Result of a whole `clip_url` run.  `workspaceCreated` records that
the temporary workspace was made; `workspaceCleaned` that it was
recursively removed before returning. -/
structure JobResult where
  result : Except ClipperError (List String)
  fs : FS
  calls : List FfmpegCall
  downloadAttempted : Bool
  workspaceCreated : Bool
  workspaceCleaned : Bool

/-- `clip_url` from clipper.py.  Dependency and quality checks run before
the workspace is created; the `with` block around `clip_job` is modelled
by its try/finally semantics: whatever `clip_job` produces — a value or
an error — the workspace is removed before the function returns, so
`workspaceCleaned` is set exactly when `workspaceCreated` is. -/
def clip_url (env : Env) (fs : FS) (ranges : List (Int × Int)) (outdir : String)
    (reencode : Bool) (output_format : String) (quality_height : Int) : JobResult :=
  let missing := (if env.ffmpeg_on_path then [] else [ffmpegS]) ++
                 (if env.ytdlp_on_path then [] else [ytdlpS])
  if missing = [] then
    if quality_height ≤ 0 then ⟨.error .invalidQuality, fs, [], false, false, false⟩
    else
      let r := clip_job env fs ranges outdir reencode output_format quality_height
      ⟨r.result, r.fs, r.calls, r.downloadAttempted, true, true⟩
  else ⟨.error (.missingDependency missing), fs, [], false, false, false⟩

/-! ### Concrete test inputs and example worlds -/

/-- Test input. -/
def s120S : String := "120"

/-- Test input. -/
def s200S : String := "2:00"

/-- Test input. -/
def sabcS : String := "abc"

/-- Test input. -/
def sm5S : String := "-5"

/-- Test input. -/
def sRangesS : String := "10-30,45-50"

/-- Test input. -/
def sEmptyS : String := ""

/-- Test input. -/
def sCommaS : String := " , "

/-- Test input (duplicate and overlapping ranges). -/
def sOverlapS : String := "10-30,10-30,5-40"

/-- Test input (leading dash). -/
def sNeg510S : String := "-5-10"

/-- Test input (two dashes). -/
def s103040S : String := "10-30-40"

/-- Test input (negative end). -/
def s5m3S : String := "5--3"

/-- A VP9 codec identifier. -/
def vp9S : String := "vp9"

/-- An H.264 codec identifier. -/
def avcFullS : String := "avc1.64001f"

/-- A WebM container extension. -/
def webmS : String := "webm"

/-- The spec's example format inventory: heights 480/720/1080 where only
720 is H.264 in an mp4 container. -/
def exampleFormats : List Fmt :=
  [⟨some 480, some vp9S, some webmS⟩,
   ⟨some 720, some avcFullS, some mp4S⟩,
   ⟨some 1080, some vp9S, some webmS⟩]

/-- A sample artifact content produced by the engine oracle. -/
def dataS : String := "x"

/-- An engine oracle that always succeeds. -/
def engineOk : FfmpegCall → Option String := fun _ => some dataS

/-- A sample output path. -/
def outPathS : String := "out/clip.mp4"

/-- A sample downloaded source file name. -/
def srcFileS : String := "source.mp4"

/-- A sample output directory. -/
def outDirS : String := "out"

/-- A sample run timestamp. -/
def stampS : String := "S"

/-- An example environment: both tools on PATH, the example metadata,
a download that produces `source.mp4`, an engine that always succeeds. -/
def envOkW : Env :=
  { ffmpeg_on_path := true
    ytdlp_on_path := true
    run_stamp := stampS
    metadata := .ok exampleFormats
    download := fun _ => some [srcFileS]
    ffmpeg := engineOk }

/-- Expected first artifact path of the witness run. -/
def outClip1S : String := "out/clip_10_30_S.mp4"

/-- Expected second artifact path of the witness run. -/
def outClip2S : String := "out/clip_45_50_S.mp4"

/-! ### Character and list facts -/

theorem isPySpace_space_cases {c : Char} (h : isPySpace c = true) :
    c = ' ' ∨ c = '\t' ∨ c = '\n' ∨ c = '\r' ∨ c = '\x0b' ∨ c = '\x0c' := by
  simp only [isPySpace, Bool.or_eq_true, beq_iff_eq] at h
  tauto

theorem isDigit_not_pySpace {c : Char} (h : c.isDigit = true) : isPySpace c = false := by
  by_contra hcon
  rcases isPySpace_space_cases (by simpa using hcon) with h' | h' | h' | h' | h' | h' <;>
    (subst h'; exact absurd h (by decide))

theorem isDigit_ne_colon {c : Char} (h : c.isDigit = true) : c ≠ ':' := by
  rintro rfl; exact absurd h (by decide)

theorem isDigit_ne_dash {c : Char} (h : c.isDigit = true) : c ≠ '-' := by
  rintro rfl; exact absurd h (by decide)

theorem isDigit_ne_plus {c : Char} (h : c.isDigit = true) : c ≠ '+' := by
  rintro rfl; exact absurd h (by decide)

theorem isDigit_ne_comma {c : Char} (h : c.isDigit = true) : c ≠ ',' := by
  rintro rfl; exact absurd h (by decide)

theorem dropWhile_eq_self_of_all {p : Char → Bool} {l : List Char}
    (h : ∀ c ∈ l, p c = false) : l.dropWhile p = l := by
  cases l with
  | nil => rfl
  | cons c t => rw [List.dropWhile_cons, if_neg (by simp [h c (by simp)])]

theorem dropWhile_append_of_all {p : Char → Bool} {a b : List Char}
    (h : ∀ c ∈ a, p c = true) : (a ++ b).dropWhile p = b.dropWhile p := by
  induction a with
  | nil => rfl
  | cons c t ih =>
    rw [List.cons_append, List.dropWhile_cons, if_pos (h c (by simp))]
    exact ih fun c hc => h c (by simp [hc])

theorem pyStrip_eq_self_of_no_space {l : List Char}
    (h : ∀ c ∈ l, isPySpace c = false) : pyStrip l = l := by
  unfold pyStrip
  rw [dropWhile_eq_self_of_all h,
      dropWhile_eq_self_of_all (fun c hc => h c (List.mem_reverse.mp hc)),
      List.reverse_reverse]

theorem pyStrip_sandwich {w1 d w2 : List Char}
    (hw1 : ∀ c ∈ w1, isPySpace c = true) (hw2 : ∀ c ∈ w2, isPySpace c = true)
    (hd : ∀ c ∈ d, isPySpace c = false) (hne : d ≠ []) :
    pyStrip (w1 ++ d ++ w2) = d := by
  unfold pyStrip
  rw [List.append_assoc, dropWhile_append_of_all hw1]
  cases d with
  | nil => exact absurd rfl hne
  | cons c t =>
    rw [List.cons_append, List.dropWhile_cons, if_neg (by simp [hd c (by simp)]),
        ← List.cons_append, List.reverse_append,
        dropWhile_append_of_all (fun x hx => hw2 x (List.mem_reverse.mp hx)),
        dropWhile_eq_self_of_all (fun x hx => hd x (List.mem_reverse.mp hx)),
        List.reverse_reverse]

theorem pyStrip_sublist (l : List Char) : List.Sublist (pyStrip l) l := by
  have h1 : List.Sublist ((l.dropWhile isPySpace).reverse.dropWhile isPySpace) (l.dropWhile isPySpace).reverse :=
    List.dropWhile_sublist _
  have h2 := h1.reverse
  rw [List.reverse_reverse] at h2
  exact h2.trans (List.dropWhile_sublist _)

theorem mem_of_mem_pyStrip {c : Char} {l : List Char} (h : c ∈ pyStrip l) : c ∈ l :=
  (pyStrip_sublist l).subset h

theorem mem_pyStrip_of_not_space {c : Char} {l : List Char}
    (hc : isPySpace c = false) (h : c ∈ l) : c ∈ pyStrip l := by
  have aux : ∀ (m : List Char), c ∈ m → c ∈ m.dropWhile isPySpace := by
    intro m hm
    induction m with
    | nil => simp at hm
    | cons a t ih =>
      rw [List.dropWhile_cons]
      by_cases ha : isPySpace a = true
      · rw [if_pos ha]
        rcases List.mem_cons.mp hm with rfl | hmem
        · exact absurd ha (by simp [hc])
        · exact ih hmem
      · rw [if_neg ha]; exact hm
  unfold pyStrip
  rw [List.mem_reverse]
  exact aux _ (by rw [List.mem_reverse]; exact aux _ h)

/-! ### Python integer parsing facts -/

theorem digitsValAux_cons (acc : Nat) (c : Char) (cs : List Char) :
    digitsValAux acc (c :: cs) = digitsValAux (acc * 10 + charVal c) cs := rfl

theorem udigitsGo_one (acc : Nat) (c : Char) :
    udigitsGo acc [c] = if c.isDigit then some (acc * 10 + charVal c) else none := rfl

theorem udigitsGo_two (acc : Nat) (c c2 : Char) (rest : List Char) :
    udigitsGo acc (c :: c2 :: rest) =
      if c.isDigit then udigitsGo (acc * 10 + charVal c) (c2 :: rest)
      else if c = '_' ∧ c2.isDigit = true then udigitsGo (acc * 10 + charVal c2) rest
      else none := rfl

theorem parseUDigits_cons (c : Char) (rest : List Char) :
    parseUDigits (c :: rest) = if c.isDigit then udigitsGo (charVal c) rest else none := rfl

theorem udigitsGo_digits {l : List Char} (h : ∀ c ∈ l, c.isDigit = true) :
    ∀ acc, udigitsGo acc l = some (digitsValAux acc l) := by
  induction l with
  | nil => intro acc; rfl
  | cons c t ih =>
    intro acc
    cases t with
    | nil =>
      rw [udigitsGo_one, if_pos (h c (by simp))]
      rfl
    | cons c2 t2 =>
      rw [udigitsGo_two, if_pos (h c (by simp)), digitsValAux_cons]
      exact ih (fun x hx => h x (by simp [hx])) _

theorem parseUDigits_digits {l : List Char} (hne : l ≠ [])
    (h : ∀ c ∈ l, c.isDigit = true) : parseUDigits l = some (digitsVal l) := by
  cases l with
  | nil => exact absurd rfl hne
  | cons c t =>
    have hv : digitsVal (c :: t) = digitsValAux (charVal c) t := by
      rw [digitsVal, digitsValAux_cons]
      norm_num
    rw [parseUDigits_cons, if_pos (h c (by simp)),
        udigitsGo_digits (fun x hx => h x (by simp [hx])), hv]

theorem udigitsGo_mem_of_some_aux :
    ∀ (n : Nat) (l : List Char), l.length ≤ n → ∀ {acc v}, udigitsGo acc l = some v →
      ∀ c ∈ l, c.isDigit = true ∨ c = '_' := by
  intro n
  induction n with
  | zero =>
    intro l hl acc v _ c hc
    rw [List.length_eq_zero.mp (Nat.le_zero.mp hl)] at hc
    simp at hc
  | succ m ih =>
    intro l hl acc v hv c hc
    match l with
    | [] => simp at hc
    | [a] =>
      rw [udigitsGo_one] at hv
      by_cases ha : a.isDigit = true
      · rcases List.mem_singleton.mp hc with rfl; exact Or.inl ha
      · rw [if_neg ha] at hv; simp at hv
    | a :: a2 :: t =>
      rw [udigitsGo_two] at hv
      by_cases ha : a.isDigit = true
      · rw [if_pos ha] at hv
        rcases List.mem_cons.mp hc with rfl | hmem
        · exact Or.inl ha
        · refine ih (a2 :: t) ?_ hv c hmem
          simp only [List.length_cons] at hl ⊢
          omega
      · rw [if_neg ha] at hv
        by_cases ha' : a = '_' ∧ a2.isDigit = true
        · rw [if_pos ha'] at hv
          rcases List.mem_cons.mp hc with rfl | hmem
          · exact Or.inr ha'.1
          · rcases List.mem_cons.mp hmem with rfl | hmem2
            · exact Or.inl ha'.2
            · refine ih t ?_ hv c hmem2
              simp only [List.length_cons] at hl
              omega
        · rw [if_neg ha'] at hv; simp at hv

theorem udigitsGo_mem_of_some {l : List Char} {acc v : Nat}
    (h : udigitsGo acc l = some v) : ∀ c ∈ l, c.isDigit = true ∨ c = '_' :=
  udigitsGo_mem_of_some_aux l.length l le_rfl h

theorem parseUDigits_mem_of_some {l : List Char} {v : Nat}
    (h : parseUDigits l = some v) : ∀ c ∈ l, c.isDigit = true ∨ c = '_' := by
  cases l with
  | nil => simp
  | cons a t =>
    rw [parseUDigits_cons] at h
    by_cases ha : a.isDigit = true
    · rw [if_pos ha] at h
      intro c hc
      rcases List.mem_cons.mp hc with rfl | hmem
      · exact Or.inl ha
      · exact udigitsGo_mem_of_some h c hmem
    · rw [if_neg ha] at h; simp at h

theorem pyIntParse_digits {l : List Char} (hne : l ≠ [])
    (h : ∀ c ∈ l, c.isDigit = true) : pyIntParse l = some (digitsVal l : Int) := by
  cases l with
  | nil => exact absurd rfl hne
  | cons c t =>
    rw [pyIntParse, if_neg (isDigit_ne_plus (h c (by simp))),
        if_neg (isDigit_ne_dash (h c (by simp))),
        parseUDigits_digits (by simp) h]
    rfl

theorem pyIntParse_neg_digits {d : List Char} (hne : d ≠ [])
    (h : ∀ c ∈ d, c.isDigit = true) :
    pyIntParse ('-' :: d) = some (-(digitsVal d : Int)) := by
  rw [pyIntParse, if_neg (by decide), if_pos rfl, parseUDigits_digits hne h]
  rfl

theorem pyIntParse_neg_imp_dash {l : List Char} {n : Int}
    (h : pyIntParse l = some n) (hn : n < 0) : '-' ∈ l := by
  cases l with
  | nil => simp [pyIntParse] at h
  | cons c t =>
    rw [pyIntParse] at h
    by_cases hp : c = '+'
    · rw [if_pos hp] at h
      cases hk : parseUDigits t with
      | none => rw [hk] at h; simp at h
      | some m => rw [hk] at h; simp at h; omega
    · rw [if_neg hp] at h
      by_cases hm : c = '-'
      · subst hm; simp
      · rw [if_neg hm] at h
        cases hk : parseUDigits (c :: t) with
        | none => rw [hk] at h; simp at h
        | some m => rw [hk] at h; simp at h; omega

/-! ### parse_time facts -/

theorem parse_time_mk (l : List Char) :
    parse_time (String.mk l) =
      (let v := pyStrip l
       if ':' ∈ v then .error .invalidTimestamp
       else
         match pyIntParse v with
         | none => .error .invalidTimestamp
         | some seconds =>
           if seconds < 0 then .error .negativeTimestamp else .ok seconds) := rfl

theorem parse_time_sandwich {w1 d w2 : List Char}
    (hw1 : ∀ c ∈ w1, isPySpace c = true) (hw2 : ∀ c ∈ w2, isPySpace c = true)
    (hd : ∀ c ∈ d, c.isDigit = true) (hne : d ≠ []) :
    parse_time (String.mk (w1 ++ d ++ w2)) = .ok (digitsVal d : Int) := by
  rw [parse_time_mk]
  have hstrip : pyStrip (w1 ++ d ++ w2) = d :=
    pyStrip_sandwich hw1 hw2 (fun c hc => isDigit_not_pySpace (hd c hc)) hne
  simp only [hstrip]
  rw [if_neg (fun hmem => isDigit_ne_colon (hd ':' hmem) rfl),
      pyIntParse_digits hne hd]
  simp

theorem parse_time_digits {d : List Char} (hd : ∀ c ∈ d, c.isDigit = true) (hne : d ≠ []) :
    parse_time (String.mk d) = .ok (digitsVal d : Int) := by
  have h := @parse_time_sandwich [] d [] (by simp) (by simp) hd hne
  simpa using h

theorem parse_time_colon {s : String} (h : ':' ∈ s.data) :
    parse_time s = .error .invalidTimestamp := by
  have hmem : ':' ∈ pyStrip s.data := mem_pyStrip_of_not_space (by decide) h
  rw [show s = String.mk s.data from rfl, parse_time_mk]
  simp only [hmem, if_pos]

theorem parse_time_neg {d : List Char} (hd : ∀ c ∈ d, c.isDigit = true) (hne : d ≠ [])
    (hpos : 0 < digitsVal d) :
    parse_time (String.mk ('-' :: d)) = .error .negativeTimestamp := by
  rw [parse_time_mk]
  have hstrip : pyStrip ('-' :: d) = '-' :: d := by
    refine pyStrip_eq_self_of_no_space ?_
    intro c hc
    rcases List.mem_cons.mp hc with rfl | hmem
    · decide
    · exact isDigit_not_pySpace (hd c hmem)
  simp only [hstrip]
  rw [if_neg ?hcolon]
  case hcolon =>
    intro hmem
    rcases List.mem_cons.mp hmem with heq | hmem2
    · exact absurd heq.symm (by decide)
    · exact isDigit_ne_colon (hd ':' hmem2) rfl
  simp only [pyIntParse_neg_digits hne hd]
  rw [if_pos (by omega)]

theorem parse_time_err_kinds {s : String} {e : ClipperError}
    (h : parse_time s = .error e) :
    e = .invalidTimestamp ∨ e = .negativeTimestamp := by
  rw [show s = String.mk s.data from rfl, parse_time_mk] at h
  by_cases hc : ':' ∈ pyStrip s.data
  · rw [if_pos hc] at h
    exact Or.inl (by cases h; rfl)
  · rw [if_neg hc] at h
    cases hk : pyIntParse (pyStrip s.data) with
    | none => rw [hk] at h; exact Or.inl (by cases h; rfl)
    | some n =>
      simp only [hk] at h
      by_cases hn : n < 0
      · rw [if_pos hn] at h; exact Or.inr (by cases h; rfl)
      · rw [if_neg hn] at h; cases h

theorem parse_time_ok_nonneg {s : String} {n : Int} (h : parse_time s = .ok n) : 0 ≤ n := by
  rw [show s = String.mk s.data from rfl, parse_time_mk] at h
  by_cases hc : ':' ∈ pyStrip s.data
  · rw [if_pos hc] at h; cases h
  · rw [if_neg hc] at h
    cases hk : pyIntParse (pyStrip s.data) with
    | none => rw [hk] at h; cases h
    | some m =>
      simp only [hk] at h
      by_cases hn : m < 0
      · rw [if_pos hn] at h; cases h
      · rw [if_neg hn] at h; cases h; omega

theorem parse_time_no_dash_not_neg {s : String} (h : '-' ∉ s.data) :
    parse_time s ≠ .error .negativeTimestamp := by
  intro hcon
  rw [show s = String.mk s.data from rfl, parse_time_mk] at hcon
  by_cases hc : ':' ∈ pyStrip s.data
  · rw [if_pos hc] at hcon; cases hcon
  · rw [if_neg hc] at hcon
    cases hk : pyIntParse (pyStrip s.data) with
    | none => rw [hk] at hcon; cases hcon
    | some m =>
      simp only [hk] at hcon
      by_cases hn : m < 0
      · exact h (mem_of_mem_pyStrip (pyIntParse_neg_imp_dash hk hn))
      · rw [if_neg hn] at hcon; cases hcon

theorem parse_time_empty : parse_time (String.mk []) = .error .invalidTimestamp := rfl

/-! ### parse_clip_ranges facts -/

theorem splitOnChar_no_sep {sep : Char} {l : List Char} (h : sep ∉ l) :
    splitOnChar sep l = [l] := by
  induction l with
  | nil => rfl
  | cons c t ih =>
    rw [splitOnChar, if_neg ?hne, ih (fun hm => h (List.mem_cons_of_mem c hm))]
    case hne =>
      intro hc
      exact h (by rw [hc]; exact List.mem_cons_self sep t)

theorem rangeItems_mk_single {l : List Char} (hcomma : ',' ∉ l)
    (hsp : ∀ c ∈ l, isPySpace c = false) (hne : l ≠ []) :
    rangeItems (String.mk l) = [l] := by
  unfold rangeItems
  rw [show (String.mk l).data = l from rfl, splitOnChar_no_sep hcomma]
  rw [List.map_singleton, pyStrip_eq_self_of_no_space hsp]
  cases l with
  | nil => exact absurd rfl hne
  | cons c t => rfl

theorem takeWhile_append_dash {da db : List Char} (h : ∀ c ∈ da, c ≠ '-') :
    (da ++ '-' :: db).takeWhile (fun c => c != '-') = da := by
  induction da with
  | nil => simp [List.takeWhile_cons]
  | cons c t ih =>
    rw [List.cons_append, List.takeWhile_cons, if_pos (by simp [h c (by simp)])]
    rw [ih (fun x hx => h x (by simp [hx]))]

theorem dropWhile_append_dash {da db : List Char} (h : ∀ c ∈ da, c ≠ '-') :
    (da ++ '-' :: db).dropWhile (fun c => c != '-') = '-' :: db := by
  induction da with
  | nil => simp [List.dropWhile_cons]
  | cons c t ih =>
    rw [List.cons_append, List.dropWhile_cons, if_pos (by simp [h c (by simp)])]
    exact ih (fun x hx => h x (by simp [hx]))

theorem parseRangeItem_eval {item : List Char} (hdash : '-' ∈ item) :
    parseRangeItem item =
      (match parse_time (String.mk (rangeStartText item)) with
       | .error e => .error e
       | .ok tstart =>
         match parse_time (String.mk (rangeEndText item)) with
         | .error e => .error e
         | .ok tend =>
           match _validate_range tstart tend with
           | .error e => .error e
           | .ok _ => .ok (tstart, tend)) := by
  rw [parseRangeItem, if_pos hdash]; rfl

theorem parseRangeItem_digits {da db : List Char}
    (hda : ∀ c ∈ da, c.isDigit = true) (hdb : ∀ c ∈ db, c.isDigit = true)
    (hnea : da ≠ []) (hneb : db ≠ []) :
    parseRangeItem (da ++ '-' :: db) =
      if (digitsVal db : Int) ≤ (digitsVal da : Int) then .error .nonPositiveDuration
      else .ok ((digitsVal da : Int), (digitsVal db : Int)) := by
  have hdash : '-' ∈ da ++ '-' :: db := by simp
  rw [parseRangeItem_eval hdash]
  have hstart : rangeStartText (da ++ '-' :: db) = da :=
    takeWhile_append_dash (fun c hc => isDigit_ne_dash (hda c hc))
  have hend : rangeEndText (da ++ '-' :: db) = db := by
    unfold rangeEndText
    rw [dropWhile_append_dash (fun c hc => isDigit_ne_dash (hda c hc))]
    rfl
  rw [hstart, hend, parse_time_digits hda hnea, parse_time_digits hdb hneb]
  unfold _validate_range
  by_cases hcmp : (digitsVal db : Int) ≤ (digitsVal da : Int)
  · simp only [if_pos hcmp]
  · simp only [if_neg hcmp]

theorem parseRangeItem_err_kinds {item : List Char} {e : ClipperError}
    (h : parseRangeItem item = .error e) :
    e = .invalidTimestamp ∨ e = .negativeTimestamp ∨ e = .malformedRange item ∨
      e = .nonPositiveDuration := by
  by_cases hdash : '-' ∈ item
  · rw [parseRangeItem_eval hdash] at h
    cases hs : parse_time (String.mk (rangeStartText item)) with
    | error e1 =>
      simp only [hs] at h
      cases h
      rcases parse_time_err_kinds hs with h1 | h1 <;> simp [h1]
    | ok v1 =>
      simp only [hs] at h
      cases he : parse_time (String.mk (rangeEndText item)) with
      | error e2 =>
        simp only [he] at h
        cases h
        rcases parse_time_err_kinds he with h1 | h1 <;> simp [h1]
      | ok v2 =>
        simp only [he] at h
        unfold _validate_range at h
        by_cases hc : v2 ≤ v1
        · simp only [if_pos hc] at h; cases h; simp
        · simp only [if_neg hc] at h; cases h
  · rw [parseRangeItem, if_neg hdash] at h
    cases h; simp

theorem parseRangesList_nil : parseRangesList [] = .ok [] := rfl

theorem parseRangesList_cons (item : List Char) (rest : List (List Char)) :
    parseRangesList (item :: rest) =
      (match parseRangeItem item with
       | .error e => .error e
       | .ok r =>
         match parseRangesList rest with
         | .error e => .error e
         | .ok rs => .ok (r :: rs)) := rfl

theorem parseRangesList_ne_noRanges {items : List (List Char)} :
    parseRangesList items ≠ .error .noRangesProvided := by
  induction items with
  | nil => simp [parseRangesList_nil]
  | cons item rest ih =>
    rw [parseRangesList_cons]
    cases hi : parseRangeItem item with
    | error e =>
      simp only []
      intro hcon
      cases hcon
      rcases parseRangeItem_err_kinds hi with h | h | h | h <;> simp_all
    | ok r =>
      simp only []
      cases hr : parseRangesList rest with
      | error e =>
        simp only []
        intro hcon
        cases hcon
        exact ih hr
      | ok rs => simp

theorem parseRangesList_forall2 {items : List (List Char)} {l : List (Int × Int)}
    (h : parseRangesList items = .ok l) :
    List.Forall₂ (fun item r => parseRangeItem item = .ok r) items l := by
  induction items generalizing l with
  | nil => cases h; exact List.Forall₂.nil
  | cons item rest ih =>
    rw [parseRangesList_cons] at h
    cases hi : parseRangeItem item with
    | error e => simp only [hi] at h; cases h
    | ok r =>
      simp only [hi] at h
      cases hr : parseRangesList rest with
      | error e => simp only [hr] at h; cases h
      | ok rs =>
        simp only [hr] at h
        cases h
        exact List.Forall₂.cons hi (ih hr)

theorem parse_clip_ranges_noRanges_iff (s : String) :
    parse_clip_ranges s = .error .noRangesProvided ↔ rangeItems s = [] := by
  constructor
  · intro h
    rw [parse_clip_ranges] at h
    by_cases he : (rangeItems s).isEmpty
    · exact List.isEmpty_iff.mp he
    · rw [if_neg he] at h
      exact absurd h parseRangesList_ne_noRanges
  · intro h
    rw [parse_clip_ranges, if_pos (by rw [h]; rfl)]

theorem parse_clip_ranges_of_items {s : String} (h : ¬ (rangeItems s).isEmpty = true) :
    parse_clip_ranges s = parseRangesList (rangeItems s) := by
  rw [parse_clip_ranges, if_neg h]

/-! ### Claims C8, C9, C10 -/

/-- C9: `parse_time` trims surrounding whitespace and returns the value of
any decimal digit string; it fails with InvalidTimestamp on any input
containing a colon, and on any input containing a character that cannot
occur in a Python base-10 integer literal; it fails with
NegativeTimestamp exactly on negative inputs (minus sign followed by
digits with positive value), and every success is non-negative; the
claim's four examples `"120"`, `"2:00"`, `"abc"`, `"-5"` behave as
stated. -/
theorem claim_C9_parse_time :
    (∀ w1 d w2 : List Char, (∀ c ∈ w1, isPySpace c = true) → (∀ c ∈ w2, isPySpace c = true) →
      (∀ c ∈ d, c.isDigit = true) → d ≠ [] →
      parse_time (String.mk (w1 ++ d ++ w2)) = .ok (digitsVal d : Int)) ∧
    (∀ s : String, ':' ∈ s.data → parse_time s = .error .invalidTimestamp) ∧
    (∀ (s : String) (c : Char), c ∈ s.data → c.isDigit = false → c ≠ '+' → c ≠ '-' → c ≠ '_' →
      isPySpace c = false → parse_time s = .error .invalidTimestamp) ∧
    (∀ d : List Char, (∀ c ∈ d, c.isDigit = true) → d ≠ [] → 0 < digitsVal d →
      parse_time (String.mk ('-' :: d)) = .error .negativeTimestamp) ∧
    (∀ (s : String) (n : Int), parse_time s = .ok n → 0 ≤ n) ∧
    parse_time s120S = .ok 120 ∧
    parse_time s200S = .error .invalidTimestamp ∧
    parse_time sabcS = .error .invalidTimestamp ∧
    parse_time sm5S = .error .negativeTimestamp := by
  refine ⟨?_, ?_, ?_, ?_, ?_, rfl, rfl, rfl, rfl⟩
  · intro w1 d w2 hw1 hw2 hd hne
    exact parse_time_sandwich hw1 hw2 hd hne
  · intro s h
    exact parse_time_colon h
  · intro s c hc hdig hplus hminus hund hsp
    have hcst : c ∈ pyStrip s.data := mem_pyStrip_of_not_space hsp hc
    rw [show s = String.mk s.data from rfl, parse_time_mk]
    by_cases hcolon : ':' ∈ pyStrip s.data
    · rw [if_pos hcolon]
    · rw [if_neg hcolon]
      cases hk : pyIntParse (pyStrip s.data) with
      | none => simp only [hk]
      | some n =>
        exfalso
        cases hl : pyStrip s.data with
        | nil => rw [hl] at hcst; simp at hcst
        | cons hd0 tl =>
          rw [hl] at hk hcst
          rw [pyIntParse] at hk
          by_cases hp : hd0 = '+'
          · rw [if_pos hp] at hk
            cases hpu : parseUDigits tl with
            | none => rw [hpu] at hk; simp at hk
            | some k =>
              rcases List.mem_cons.mp hcst with rfl | hmem
              · exact hplus hp
              · rcases parseUDigits_mem_of_some hpu c hmem with h1 | h1
                · simp [h1] at hdig
                · exact hund h1
          · rw [if_neg hp] at hk
            by_cases hm : hd0 = '-'
            · rw [if_pos hm] at hk
              cases hpu : parseUDigits tl with
              | none => rw [hpu] at hk; simp at hk
              | some k =>
                rcases List.mem_cons.mp hcst with rfl | hmem
                · exact hminus hm
                · rcases parseUDigits_mem_of_some hpu c hmem with h1 | h1
                  · simp [h1] at hdig
                  · exact hund h1
            · rw [if_neg hm] at hk
              cases hpu : parseUDigits (hd0 :: tl) with
              | none => rw [hpu] at hk; simp at hk
              | some k =>
                rcases parseUDigits_mem_of_some hpu c hcst with h1 | h1
                · simp [h1] at hdig
                · exact hund h1
  · intro d hd hne hpos
    exact parse_time_neg hd hne hpos
  · intro s n h
    exact parse_time_ok_nonneg h

/-- Witness for C9 at concrete inputs. -/
theorem claim_C9_witness :
    parse_time (String.mk ([' '] ++ ['1', '2'] ++ [' '])) = .ok 12 ∧
    parse_time (String.mk ['a', ':']) = .error .invalidTimestamp ∧
    parse_time (String.mk ['x', '7']) = .error .invalidTimestamp ∧
    parse_time (String.mk ['-', '7']) = .error .negativeTimestamp ∧
    (0 : Int) ≤ 120 :=
  ⟨claim_C9_parse_time.1 [' '] ['1', '2'] [' '] (by decide) (by decide) (by decide) (by decide),
   claim_C9_parse_time.2.1 (String.mk ['a', ':']) (by decide),
   claim_C9_parse_time.2.2.1 (String.mk ['x', '7']) 'x' (by decide) (by decide) (by decide)
     (by decide) (by decide) (by decide),
   claim_C9_parse_time.2.2.2.1 ['7'] (by decide) (by decide) (by decide),
   claim_C9_parse_time.2.2.2.2.1 s120S 120 rfl⟩

/-- C8: `parse_clip_ranges` splits on commas, trims and discards empty
segments, and fails with NoRangesProvided exactly when nothing remains; a
segment with no `-` fails with MalformedRange; a digit segment `a-b`
yields `[(a,b)]` when `a < b` and NonPositiveDuration when `b ≤ a`; a
successful parse maps the surviving segments in input order one-to-one
onto the result (no deduplication, no sorting), and the claim's concrete
examples evaluate as stated, including overlapping duplicates. -/
theorem claim_C8_parse_clip_ranges :
    (∀ s : String, parse_clip_ranges s = .error .noRangesProvided ↔ rangeItems s = []) ∧
    (∀ item : List Char, '-' ∉ item → parseRangeItem item = .error (.malformedRange item)) ∧
    (∀ da db : List Char, (∀ c ∈ da, c.isDigit = true) → (∀ c ∈ db, c.isDigit = true) →
      da ≠ [] → db ≠ [] →
      (digitsVal da < digitsVal db →
        parse_clip_ranges (String.mk (da ++ '-' :: db)) =
          .ok [((digitsVal da : Int), (digitsVal db : Int))]) ∧
      (digitsVal db ≤ digitsVal da →
        parse_clip_ranges (String.mk (da ++ '-' :: db)) = .error .nonPositiveDuration)) ∧
    (∀ (s : String) (l : List (Int × Int)), parse_clip_ranges s = .ok l →
      List.Forall₂ (fun item r => parseRangeItem item = .ok r) (rangeItems s) l) ∧
    parse_clip_ranges sRangesS = .ok [(10, 30), (45, 50)] ∧
    parse_clip_ranges sEmptyS = .error .noRangesProvided ∧
    parse_clip_ranges sCommaS = .error .noRangesProvided ∧
    parse_clip_ranges sOverlapS = .ok [(10, 30), (10, 30), (5, 40)] := by
  refine ⟨parse_clip_ranges_noRanges_iff, ?_, ?_, ?_, rfl, rfl, rfl, rfl⟩
  · intro item h
    rw [parseRangeItem, if_neg h]
  · intro da db hda hdb hnea hneb
    have hitems : rangeItems (String.mk (da ++ '-' :: db)) = [da ++ '-' :: db] := by
      refine rangeItems_mk_single ?_ ?_ ?_
      · intro hmem
        rcases List.mem_append.mp hmem with hm | hm
        · exact isDigit_ne_comma (hda ',' hm) rfl
        · rcases List.mem_cons.mp hm with heq | hm2
          · exact absurd heq (by decide)
          · exact isDigit_ne_comma (hdb ',' hm2) rfl
      · intro c hmem
        rcases List.mem_append.mp hmem with hm | hm
        · exact isDigit_not_pySpace (hda c hm)
        · rcases List.mem_cons.mp hm with heq | hm2
          · rw [heq]; decide
          · exact isDigit_not_pySpace (hdb c hm2)
      · cases da <;> simp
    have heval : parse_clip_ranges (String.mk (da ++ '-' :: db)) =
        parseRangesList [da ++ '-' :: db] := by
      rw [parse_clip_ranges_of_items (by rw [hitems]; simp), hitems]
    have hitem := parseRangeItem_digits hda hdb hnea hneb
    constructor
    · intro hlt
      rw [heval, parseRangesList_cons, hitem,
          if_neg (by omega), parseRangesList_nil]
    · intro hle
      rw [heval, parseRangesList_cons, hitem, if_pos (by omega)]
  · intro s l h
    have hne : ¬ (rangeItems s).isEmpty = true := by
      intro he
      rw [parse_clip_ranges, if_pos he] at h
      cases h
    rw [parse_clip_ranges_of_items hne] at h
    exact parseRangesList_forall2 h

/-- Witness for C8 at concrete inputs. -/
theorem claim_C8_witness :
    (parse_clip_ranges sEmptyS = .error .noRangesProvided ↔ rangeItems sEmptyS = []) ∧
    parseRangeItem ['5'] = .error (.malformedRange ['5']) ∧
    parse_clip_ranges (String.mk (['1'] ++ '-' :: ['2'])) = .ok [(1, 2)] ∧
    parse_clip_ranges (String.mk (['7'] ++ '-' :: ['2'])) = .error .nonPositiveDuration ∧
    List.Forall₂ (fun item r => parseRangeItem item = .ok r) (rangeItems sRangesS)
      [(10, 30), (45, 50)] :=
  ⟨claim_C8_parse_clip_ranges.1 sEmptyS,
   claim_C8_parse_clip_ranges.2.1 ['5'] (by decide),
   (claim_C8_parse_clip_ranges.2.2.1 ['1'] ['2'] (by decide) (by decide) (by decide)
     (by decide)).1 (by decide),
   (claim_C8_parse_clip_ranges.2.2.1 ['7'] ['2'] (by decide) (by decide) (by decide)
     (by decide)).2 (by decide),
   claim_C8_parse_clip_ranges.2.2.2.1 sRangesS [(10, 30), (45, 50)] rfl⟩

/-- C10: segments are split at the first `-` only: a segment beginning
with `-` loses that dash to the separator and fails with
InvalidTimestamp from the empty start substring (never NegativeTimestamp
or MalformedRange); `"10-30-40"` fails with InvalidTimestamp from its
end substring `30-40`; `parse_time` never returns NegativeTimestamp on a
dash-free text, so a NegativeTimestamp from a segment always comes from
its end part, as in `"5--3"`. -/
theorem claim_C10_first_dash_split :
    (∀ rest : List Char, parseRangeItem ('-' :: rest) = .error .invalidTimestamp) ∧
    parse_clip_ranges sNeg510S = .error .invalidTimestamp ∧
    parse_clip_ranges s103040S = .error .invalidTimestamp ∧
    (∀ s : String, '-' ∉ s.data → parse_time s ≠ .error .negativeTimestamp) ∧
    (∀ item : List Char, parseRangeItem item = .error .negativeTimestamp →
      parse_time (String.mk (rangeEndText item)) = .error .negativeTimestamp) ∧
    parse_clip_ranges s5m3S = .error .negativeTimestamp := by
  refine ⟨?_, rfl, rfl, ?_, ?_, rfl⟩
  · intro rest
    have hdash : '-' ∈ '-' :: rest := List.mem_cons_self _ _
    rw [parseRangeItem_eval hdash]
    have hstart : rangeStartText ('-' :: rest) = [] := by
      unfold rangeStartText
      rw [List.takeWhile_cons]
      simp
    rw [hstart, parse_time_empty]
  · intro s h
    exact parse_time_no_dash_not_neg h
  · intro item h
    by_cases hdash : '-' ∈ item
    · rw [parseRangeItem_eval hdash] at h
      have hnd : '-' ∉ (String.mk (rangeStartText item)).data := by
        intro hm
        have hp := List.mem_takeWhile_imp hm
        simp at hp
      cases hs : parse_time (String.mk (rangeStartText item)) with
      | error e1 =>
        simp only [hs] at h
        cases h
        exact absurd hs (parse_time_no_dash_not_neg hnd)
      | ok v1 =>
        simp only [hs] at h
        cases he : parse_time (String.mk (rangeEndText item)) with
        | error e2 =>
          simp only [he] at h
          cases h
          rfl
        | ok v2 =>
          simp only [he] at h
          unfold _validate_range at h
          by_cases hc : v2 ≤ v1
          · simp only [if_pos hc] at h
            simp at h
          · simp only [if_neg hc] at h
            cases h
    · rw [parseRangeItem, if_neg hdash] at h
      simp at h

/-- Witness for C10 at concrete inputs. -/
theorem claim_C10_witness :
    parseRangeItem ('-' :: ['5']) = .error .invalidTimestamp ∧
    parse_time (String.mk ['5']) ≠ .error .negativeTimestamp ∧
    parse_time (String.mk (rangeEndText ['5', '-', '-', '3'])) = .error .negativeTimestamp :=
  ⟨claim_C10_first_dash_split.1 ['5'],
   claim_C10_first_dash_split.2.2.2.1 (String.mk ['5']) (by decide),
   claim_C10_first_dash_split.2.2.2.2.1 ['5', '-', '-', '3'] rfl⟩

/-! ### Availability classification facts -/

theorem mem_sortedHeights {l : List Int} {x : Int} : x ∈ sortedHeights l ↔ x ∈ l := by
  unfold sortedHeights
  rw [(List.perm_insertionSort _ _).mem_iff, List.mem_dedup]

theorem sortedHeights_sorted (l : List Int) : List.Sorted (· ≤ ·) (sortedHeights l) :=
  List.sorted_insertionSort _ _

theorem sortedHeights_nodup (l : List Int) : (sortedHeights l).Nodup :=
  (List.perm_insertionSort _ _).nodup_iff.mpr (List.nodup_dedup _)

theorem contributes_any_iff {f : Fmt} {h : Int} :
    (contributes_any f = true ∧ f.height = some h) ↔
      (f.height = some h ∧ h ≠ 0 ∧ f.vcodec ≠ none ∧ f.vcodec ≠ some noneS) := by
  obtain ⟨fh, fv, fe⟩ := f
  cases fh <;> cases fv <;> simp [contributes_any, vcodec_present] <;> aesop

theorem contributes_fast_iff {f : Fmt} {h : Int} :
    (contributes_fast f = true ∧ f.height = some h) ↔
      (f.height = some h ∧ h ≠ 0 ∧ f.vcodec ≠ none ∧ f.vcodec ≠ some noneS ∧
       f.ext = some mp4S ∧ ∃ v, f.vcodec = some v ∧ pyStartsWith v avc1S = true) := by
  obtain ⟨fh, fv, fe⟩ := f
  cases fh <;> cases fv <;> cases fe <;> simp [contributes_fast, contributes_any, vcodec_present] <;> aesop

theorem mem_available_any {formats : List Fmt} {h : Int} :
    h ∈ (_available_heights formats).2 ↔
      ∃ f ∈ formats, f.height = some h ∧ h ≠ 0 ∧ f.vcodec ≠ none ∧ f.vcodec ≠ some noneS := by
  unfold _available_heights
  rw [mem_sortedHeights, List.mem_filterMap]
  constructor
  · rintro ⟨f, hf, hif⟩
    by_cases hc : contributes_any f = true
    · rw [if_pos hc] at hif
      exact ⟨f, hf, contributes_any_iff.mp ⟨hc, hif⟩⟩
    · rw [if_neg hc] at hif
      cases hif
  · rintro ⟨f, hf, hprops⟩
    have hh := contributes_any_iff.mpr hprops
    exact ⟨f, hf, by rw [if_pos hh.1]; exact hh.2⟩

theorem mem_available_fast {formats : List Fmt} {h : Int} :
    h ∈ (_available_heights formats).1 ↔
      ∃ f ∈ formats, f.height = some h ∧ h ≠ 0 ∧ f.vcodec ≠ none ∧ f.vcodec ≠ some noneS ∧
        f.ext = some mp4S ∧ ∃ v, f.vcodec = some v ∧ pyStartsWith v avc1S = true := by
  unfold _available_heights
  rw [mem_sortedHeights, List.mem_filterMap]
  constructor
  · rintro ⟨f, hf, hif⟩
    by_cases hc : contributes_fast f = true
    · rw [if_pos hc] at hif
      exact ⟨f, hf, contributes_fast_iff.mp ⟨hc, hif⟩⟩
    · rw [if_neg hc] at hif
      cases hif
  · rintro ⟨f, hf, hprops⟩
    have hh := contributes_fast_iff.mpr hprops
    exact ⟨f, hf, by rw [if_pos hh.1]; exact hh.2⟩

/-- C3: a format's height lands in the any-codec set iff the height is
present and non-zero and the video codec is present (not absent, not
"none"); it additionally lands in the fast-path set iff the container is
mp4 and the codec identifier starts with `avc1`; both sets come out
duplicate-free in ascending order; and the spec's 480/720/1080 example
yields fastPath `[720]` and anyCodec `[480, 720, 1080]`. -/
theorem claim_C3_available_heights :
    (∀ (formats : List Fmt) (h : Int),
      h ∈ (_available_heights formats).2 ↔
        ∃ f ∈ formats, f.height = some h ∧ h ≠ 0 ∧ f.vcodec ≠ none ∧ f.vcodec ≠ some noneS) ∧
    (∀ (formats : List Fmt) (h : Int),
      h ∈ (_available_heights formats).1 ↔
        ∃ f ∈ formats, f.height = some h ∧ h ≠ 0 ∧ f.vcodec ≠ none ∧ f.vcodec ≠ some noneS ∧
          f.ext = some mp4S ∧ ∃ v, f.vcodec = some v ∧ pyStartsWith v avc1S = true) ∧
    (∀ formats : List Fmt,
      List.Sorted (· ≤ ·) (_available_heights formats).1 ∧
      List.Sorted (· ≤ ·) (_available_heights formats).2 ∧
      (_available_heights formats).1.Nodup ∧ (_available_heights formats).2.Nodup) ∧
    _available_heights exampleFormats = ([720], [480, 720, 1080]) := by
  refine ⟨fun formats h => mem_available_any, fun formats h => mem_available_fast, ?_, by decide⟩
  intro formats
  exact ⟨sortedHeights_sorted _, sortedHeights_sorted _, sortedHeights_nodup _, sortedHeights_nodup _⟩

/-- Witness for C3 at the example inventory. -/
theorem claim_C3_witness :
    (480 : Int) ∈ (_available_heights exampleFormats).2 ∧
    (720 : Int) ∈ (_available_heights exampleFormats).1 :=
  ⟨(claim_C3_available_heights.1 exampleFormats 480).mpr
      ⟨⟨some 480, some vp9S, some webmS⟩, by decide, rfl, by decide, by decide, by decide⟩,
   (claim_C3_available_heights.2.1 exampleFormats 720).mpr
      ⟨⟨some 720, some avcFullS, some mp4S⟩, by decide, rfl, by decide, by decide, by decide,
        rfl, avcFullS, rfl, by decide⟩⟩

/-! ### Claims C5 and C7 -/

/-- C5: for every positive height, re-encode mode yields the selector
`bv*[height=H]+ba/b[height=H]` (best video at exactly H plus best audio,
else best pre-muxed at H, no codec or container constraint) with no merge
container, while fast-path mode yields
`bv*[vcodec^=avc1][ext=mp4][height=H]+ba[acodec^=mp4a]/b[ext=mp4][height=H]`
with merge container mp4; the fast selector carries the `avc1` codec
constraint and the `[ext=mp4]` container constraint as substrings. -/
theorem claim_C5_format_selector (h : Int) (hpos : 0 < h) :
    _format_selector h true =
      (selReencodeA ++ toString h ++ selReencodeB ++ toString h ++ selBracketS, none) ∧
    (_format_selector h true).2 = none ∧
    _format_selector h false =
      (selFastA ++ toString h ++ selFastB ++ toString h ++ selBracketS, some mp4S) ∧
    (_format_selector h false).2 = some mp4S ∧
    (∃ pre post : String, (_format_selector h false).1 = pre ++ avc1S ++ post) ∧
    (∃ pre post : String, (_format_selector h false).1 = pre ++ extMp4S ++ post) := by
  refine ⟨rfl, rfl, rfl, rfl, ?_, ?_⟩
  · refine ⟨selFastPreAvc,
      selFastPostAvc ++ toString h ++ selFastB ++ toString h ++ selBracketS, ?_⟩
    have hsplit : selFastA = selFastPreAvc ++ avc1S ++ selFastPostAvc := by decide
    show selFastA ++ toString h ++ selFastB ++ toString h ++ selBracketS = _
    rw [hsplit]
    simp [String.append_assoc]
  · refine ⟨selFastCodec,
      selFastPostExt ++ toString h ++ selFastB ++ toString h ++ selBracketS, ?_⟩
    have hsplit : selFastA = selFastCodec ++ extMp4S ++ selFastPostExt := by decide
    show selFastA ++ toString h ++ selFastB ++ toString h ++ selBracketS = _
    rw [hsplit]
    simp [String.append_assoc]

/-- Witness for C5 at height 720. -/
theorem claim_C5_witness :
    _format_selector 720 false =
      (selFastA ++ toString (720 : Int) ++ selFastB ++ toString (720 : Int) ++ selBracketS,
       some mp4S) ∧
    (_format_selector 720 true).2 = none :=
  ⟨(claim_C5_format_selector 720 (by decide)).2.2.1,
   (claim_C5_format_selector 720 (by decide)).2.1⟩

/-- C7: `_run_ffmpeg` checks the output path before invoking the encode
engine: when a file exists there it fails with OutputAlreadyExists,
makes no engine call, and leaves the file system unchanged; a successful
extraction followed by a second one to the same path fails the second
call with OutputAlreadyExists and leaves the first artifact intact; and
no call ever overwrites an existing file. -/
theorem claim_C7_run_ffmpeg :
    (∀ (engine : FfmpegCall → Option String) (fs : FS) (source : String) (ts te : Int)
       (p : String) (re : Bool), (List.lookup p fs).isSome = true →
       _run_ffmpeg engine fs source ts te p re = ⟨[], fs, some (.outputAlreadyExists p)⟩) ∧
    (∀ (engine : FfmpegCall → Option String) (fs : FS) (source : String) (ts te : Int)
       (p : String) (re : Bool) (c : String) (ts2 te2 : Int) (re2 : Bool),
       List.lookup p fs = none → engine ⟨source, ts, te, p, re⟩ = some c →
       _run_ffmpeg engine fs source ts te p re =
         ⟨[⟨source, ts, te, p, re⟩], (p, c) :: fs, none⟩ ∧
       _run_ffmpeg engine ((p, c) :: fs) source ts2 te2 p re2 =
         ⟨[], (p, c) :: fs, some (.outputAlreadyExists p)⟩ ∧
       List.lookup p ((p, c) :: fs) = some c) ∧
    (∀ (engine : FfmpegCall → Option String) (fs : FS) (source : String) (ts te : Int)
       (p : String) (re : Bool) (q c0 : String), List.lookup q fs = some c0 →
       List.lookup q (_run_ffmpeg engine fs source ts te p re).fs = some c0) := by
  refine ⟨?_, ?_, ?_⟩
  · intro engine fs source ts te p re hex
    rw [_run_ffmpeg, if_pos hex]
  · intro engine fs source ts te p re c ts2 te2 re2 hnone heng
    refine ⟨?_, ?_, ?_⟩
    · rw [_run_ffmpeg, if_neg (by simp [hnone])]
      simp only [heng]
    · rw [_run_ffmpeg, if_pos (by simp [List.lookup])]
    · simp [List.lookup]
  · intro engine fs source ts te p re q c0 hq
    rw [_run_ffmpeg]
    by_cases hex : (List.lookup p fs).isSome = true
    · rw [if_pos hex]
      exact hq
    · rw [if_neg hex]
      have hpq : (q == p) = false := by
        refine beq_eq_false_iff_ne.mpr ?_
        intro heq
        rw [heq] at hq
        rw [hq] at hex
        simp at hex
      cases heng : engine ⟨source, ts, te, p, re⟩ with
      | none => exact hq
      | some c =>
        show List.lookup q ((p, c) :: fs) = some c0
        rw [List.lookup, hpq]
        exact hq

/-- Witness for C7: extract once into an empty directory, then again to
the same path. -/
theorem claim_C7_witness :
    _run_ffmpeg engineOk [] srcFileS 10 30 outPathS false =
      ⟨[⟨srcFileS, 10, 30, outPathS, false⟩], [(outPathS, dataS)], none⟩ ∧
    _run_ffmpeg engineOk [(outPathS, dataS)] srcFileS 10 30 outPathS false =
      ⟨[], [(outPathS, dataS)], some (.outputAlreadyExists outPathS)⟩ ∧
    List.lookup outPathS [(outPathS, dataS)] = some dataS :=
  claim_C7_run_ffmpeg.2.1 engineOk [] srcFileS 10 30 outPathS false dataS 10 30 false rfl rfl

/-! ### Extraction-loop facts -/

theorem after_nil (C : LoopCtx) (fs : FS) : C.after fs [] = fs := rfl

theorem after_cons (C : LoopCtx) (fs : FS) (r : Int × Int) (l : List (Int × Int)) :
    C.after fs (r :: l) =
      C.after
        (match C.engine (C.call r) with
         | some c => (C.path r, c) :: fs
         | none => fs) l := rfl

theorem after_cons_some {C : LoopCtx} {r : Int × Int} {c : String}
    (h2 : C.engine (C.call r) = some c) (fs : FS) (l : List (Int × Int)) :
    C.after fs (r :: l) = C.after ((C.path r, c) :: fs) l := by
  rw [after_cons, h2]

theorem extractRanges_nil (C : LoopCtx) (fs : FS) :
    extractRanges C fs [] = (fs, [], .ok []) := rfl

theorem extractRanges_cons (C : LoopCtx) (fs : FS) (r : Int × Int) (rest : List (Int × Int)) :
    extractRanges C fs (r :: rest) =
      (match _run_ffmpeg C.engine fs C.source r.1 r.2 (C.path r) C.reencode with
       | ⟨cs0, fs0, some e⟩ => (fs0, cs0, .error e)
       | ⟨cs0, fs0, none⟩ =>
         match extractRanges C fs0 rest with
         | (fs', cs, .ok outs) => (fs', cs0 ++ cs, .ok (C.path r :: outs))
         | (fs', cs, .error e) => (fs', cs0 ++ cs, .error e)) := rfl

theorem extractRanges_cons_dup (C : LoopCtx) (fs : FS) (r : Int × Int)
    (rest : List (Int × Int)) (h : (List.lookup (C.path r) fs).isSome = true) :
    extractRanges C fs (r :: rest) = (fs, [], .error (.outputAlreadyExists (C.path r))) := by
  rw [extractRanges_cons, _run_ffmpeg, if_pos h]

theorem extractRanges_cons_efail (C : LoopCtx) (fs : FS) (r : Int × Int)
    (rest : List (Int × Int)) (h1 : List.lookup (C.path r) fs = none)
    (h2 : C.engine (C.call r) = none) :
    extractRanges C fs (r :: rest) = (fs, [C.call r], .error .extractionFailed) := by
  rw [extractRanges_cons, _run_ffmpeg, if_neg (by simp [h1]),
      show (⟨C.source, r.1, r.2, C.path r, C.reencode⟩ : FfmpegCall) = C.call r from rfl, h2]

theorem extractRanges_cons_ok_ok {C : LoopCtx} {fs : FS} {r : Int × Int}
    {rest : List (Int × Int)} {c : String} {fs' : FS} {cs : List FfmpegCall}
    {outs : List String} (h1 : List.lookup (C.path r) fs = none)
    (h2 : C.engine (C.call r) = some c)
    (hrec : extractRanges C ((C.path r, c) :: fs) rest = (fs', cs, .ok outs)) :
    extractRanges C fs (r :: rest) = (fs', C.call r :: cs, .ok (C.path r :: outs)) := by
  rw [extractRanges_cons, _run_ffmpeg, if_neg (by simp [h1]),
      show (⟨C.source, r.1, r.2, C.path r, C.reencode⟩ : FfmpegCall) = C.call r from rfl, h2]
  simp only [hrec, List.singleton_append]

theorem extractRanges_cons_ok_err {C : LoopCtx} {fs : FS} {r : Int × Int}
    {rest : List (Int × Int)} {c : String} {fs' : FS} {cs : List FfmpegCall}
    {e : ClipperError} (h1 : List.lookup (C.path r) fs = none)
    (h2 : C.engine (C.call r) = some c)
    (hrec : extractRanges C ((C.path r, c) :: fs) rest = (fs', cs, .error e)) :
    extractRanges C fs (r :: rest) = (fs', C.call r :: cs, .error e) := by
  rw [extractRanges_cons, _run_ffmpeg, if_neg (by simp [h1]),
      show (⟨C.source, r.1, r.2, C.path r, C.reencode⟩ : FfmpegCall) = C.call r from rfl, h2]
  simp only [hrec, List.singleton_append]

theorem extractRanges_ok_shape (C : LoopCtx) :
    ∀ (rs : List (Int × Int)) (fs fs' : FS) (cs : List FfmpegCall) (outs : List String),
      extractRanges C fs rs = (fs', cs, .ok outs) →
      outs = rs.map C.path ∧ cs = rs.map C.call ∧ fs' = C.after fs rs := by
  intro rs
  induction rs with
  | nil =>
    intro fs fs' cs outs h
    rw [extractRanges_nil] at h
    simp only [Prod.mk.injEq, Except.ok.injEq] at h
    obtain ⟨h1, h2, h3⟩ := h
    subst h1; subst h2; subst h3
    simp [after_nil]
  | cons r rest ih =>
    intro fs fs' cs outs h
    by_cases hdup : (List.lookup (C.path r) fs).isSome = true
    · rw [extractRanges_cons_dup _ _ _ _ hdup] at h
      simp at h
    · have h1 : List.lookup (C.path r) fs = none := by
        cases hl : List.lookup (C.path r) fs with
        | none => rfl
        | some v => rw [hl] at hdup; simp at hdup
      cases h2 : C.engine (C.call r) with
      | none =>
        rw [extractRanges_cons_efail _ _ _ _ h1 h2] at h
        simp at h
      | some c =>
        rcases hrec : extractRanges C ((C.path r, c) :: fs) rest with ⟨fs2, cs2, res2⟩
        cases res2 with
        | error e =>
          rw [extractRanges_cons_ok_err h1 h2 hrec] at h
          simp at h
        | ok outs2 =>
          rw [extractRanges_cons_ok_ok h1 h2 hrec] at h
          simp only [Prod.mk.injEq, Except.ok.injEq] at h
          obtain ⟨hfs, hcs, houts⟩ := h
          obtain ⟨ho2, hc2, hf2⟩ := ih _ _ _ _ hrec
          subst hfs; subst hcs; subst houts
          refine ⟨?_, ?_, ?_⟩
          · rw [ho2, List.map_cons]
          · rw [hc2, List.map_cons]
          · rw [hf2, after_cons_some h2]

theorem extractRanges_fail (C : LoopCtx) :
    ∀ (rs : List (Int × Int)) (fs : FS) (k : Nat) (hk : k < rs.length),
      (∀ j (hj : j < k), C.stepOk (C.after fs (rs.take j)) (rs.get ⟨j, Nat.lt_trans hj hk⟩)) →
      ¬ C.stepOk (C.after fs (rs.take k)) (rs.get ⟨k, hk⟩) →
      extractRanges C fs rs =
        (C.after fs (rs.take k),
         (rs.take k).map C.call ++ C.stepFailCalls (C.after fs (rs.take k)) (rs.get ⟨k, hk⟩),
         .error (C.stepErr (C.after fs (rs.take k)) (rs.get ⟨k, hk⟩))) := by
  intro rs
  induction rs with
  | nil =>
    intro fs k hk
    simp at hk
  | cons r rest ih =>
    intro fs k hk hok hfail
    cases k with
    | zero =>
      simp only [List.take_zero, after_nil, List.get] at hfail ⊢
      simp only [List.map_nil, List.nil_append]
      by_cases hl : List.lookup (C.path r) fs = none
      · have heng : C.engine (C.call r) = none := by
          by_contra hcon
          exact hfail ⟨hl, hcon⟩
        rw [extractRanges_cons_efail _ _ _ _ hl heng]
        rw [LoopCtx.stepErr, if_pos hl, LoopCtx.stepFailCalls, if_pos hl]
      · have hl' : (List.lookup (C.path r) fs).isSome = true := by
          cases hx : List.lookup (C.path r) fs with
          | none => exact absurd hx hl
          | some v => rfl
        rw [extractRanges_cons_dup _ _ _ _ hl']
        rw [LoopCtx.stepErr, if_neg hl, LoopCtx.stepFailCalls, if_neg hl]
    | succ k' =>
      have hstep0 := hok 0 (Nat.succ_pos k')
      simp only [List.take_zero, after_nil, List.get] at hstep0
      obtain ⟨hl, heng⟩ := hstep0
      cases h2 : C.engine (C.call r) with
      | none => exact absurd h2 heng
      | some c =>
        have hk' : k' < rest.length := Nat.lt_of_succ_lt_succ hk
        have htake : ∀ j : Nat, (r :: rest).take (j + 1) = r :: rest.take j :=
          fun j => List.take_succ_cons
        have hafter : ∀ j : Nat,
            C.after fs ((r :: rest).take (j + 1)) = C.after ((C.path r, c) :: fs) (rest.take j) :=
          fun j => by rw [htake j, after_cons_some h2]
        have hok' : ∀ j (hj : j < k'),
            C.stepOk (C.after ((C.path r, c) :: fs) (rest.take j))
              (rest.get ⟨j, Nat.lt_trans hj hk'⟩) := by
          intro j hj
          have := hok (j + 1) (Nat.succ_lt_succ hj)
          rwa [hafter j] at this
        have hfail' : ¬ C.stepOk (C.after ((C.path r, c) :: fs) (rest.take k'))
            (rest.get ⟨k', hk'⟩) := by
          rw [← hafter k']
          exact hfail
        have hres := ih ((C.path r, c) :: fs) k' hk' hok' hfail'
        rw [extractRanges_cons_ok_err hl h2 hres]
        rw [hafter k', htake k', List.map_cons]
        rfl

theorem after_keys_mono (C : LoopCtx) :
    ∀ (l : List (Int × Int)) (fs : FS) (p : String),
      p ∈ fs.map Prod.fst → p ∈ (C.after fs l).map Prod.fst := by
  intro l
  induction l with
  | nil => intro fs p hp; rw [after_nil]; exact hp
  | cons r t ih =>
    intro fs p hp
    rw [after_cons]
    cases h2 : C.engine (C.call r) with
    | none => exact ih fs p hp
    | some c => exact ih ((C.path r, c) :: fs) p (by simp [hp])

theorem after_append (C : LoopCtx) :
    ∀ (a b : List (Int × Int)) (fs : FS), C.after fs (a ++ b) = C.after (C.after fs a) b := by
  intro a
  induction a with
  | nil => intro b fs; rw [List.nil_append, after_nil]
  | cons r t ih =>
    intro b fs
    rw [List.cons_append, after_cons, after_cons]
    exact ih b _

theorem artifact_in_after (C : LoopCtx) :
    ∀ (rs : List (Int × Int)) (fs : FS) (j : Nat) (hj : j < rs.length),
      C.engine (C.call (rs.get ⟨j, hj⟩)) ≠ none →
      C.path (rs.get ⟨j, hj⟩) ∈ (C.after fs (rs.take (j + 1))).map Prod.fst := by
  intro rs
  induction rs with
  | nil => intro fs j hj; simp at hj
  | cons r rest ih =>
    intro fs j hj heng
    cases j with
    | zero =>
      simp only [List.get] at heng ⊢
      rw [List.take_succ_cons, List.take_zero, after_cons]
      cases h2 : C.engine (C.call r) with
      | none => exact absurd h2 heng
      | some c => rw [after_nil]; simp
    | succ j' =>
      simp only [List.get] at heng ⊢
      rw [List.take_succ_cons, after_cons]
      exact ih _ j' (Nat.lt_of_succ_lt_succ hj) heng

theorem extractRanges_keys (C : LoopCtx) :
    ∀ (rs : List (Int × Int)) (fs : FS) (p : String),
      p ∈ ((extractRanges C fs rs).1).map Prod.fst →
      p ∈ fs.map Prod.fst ∨ p ∈ rs.map C.path := by
  intro rs
  induction rs with
  | nil =>
    intro fs p hp
    rw [extractRanges_nil] at hp
    exact Or.inl hp
  | cons r rest ih =>
    intro fs p hp
    by_cases hdup : (List.lookup (C.path r) fs).isSome = true
    · rw [extractRanges_cons_dup _ _ _ _ hdup] at hp
      exact Or.inl hp
    · have h1 : List.lookup (C.path r) fs = none := by
        cases hl : List.lookup (C.path r) fs with
        | none => rfl
        | some v => rw [hl] at hdup; simp at hdup
      cases h2 : C.engine (C.call r) with
      | none =>
        rw [extractRanges_cons_efail _ _ _ _ h1 h2] at hp
        exact Or.inl hp
      | some c =>
        rcases hrec : extractRanges C ((C.path r, c) :: fs) rest with ⟨fs2, cs2, res2⟩
        have hp2 : p ∈ fs2.map Prod.fst := by
          cases res2 with
          | ok outs2 => rw [extractRanges_cons_ok_ok h1 h2 hrec] at hp; exact hp
          | error e => rw [extractRanges_cons_ok_err h1 h2 hrec] at hp; exact hp
        have := ih ((C.path r, c) :: fs) p (by rw [hrec]; exact hp2)
        rcases this with hin | hin
        · have hin' : p = C.path r ∨ p ∈ fs.map Prod.fst := by
            rcases List.mem_map.mp hin with ⟨⟨q, v⟩, hq, hpq⟩
            rcases List.mem_cons.mp hq with heq | hmem
            · left; rw [← hpq, heq]
            · right; exact List.mem_map.mpr ⟨(q, v), hmem, hpq⟩
          rcases hin' with heq | hmem
          · exact Or.inr (by simp [heq])
          · exact Or.inl hmem
        · exact Or.inr (by simp [hin])

theorem extractRanges_no_mismatch (C : LoopCtx) :
    ∀ (rs : List (Int × Int)) (fs : FS) (se of : String),
      (extractRanges C fs rs).2.2 ≠ .error (.outputFormatMismatch se of) := by
  intro rs
  induction rs with
  | nil => intro fs se of; rw [extractRanges_nil]; simp
  | cons r rest ih =>
    intro fs se of
    by_cases hdup : (List.lookup (C.path r) fs).isSome = true
    · rw [extractRanges_cons_dup _ _ _ _ hdup]; simp
    · have h1 : List.lookup (C.path r) fs = none := by
        cases hl : List.lookup (C.path r) fs with
        | none => rfl
        | some v => rw [hl] at hdup; simp at hdup
      cases h2 : C.engine (C.call r) with
      | none => rw [extractRanges_cons_efail _ _ _ _ h1 h2]; simp
      | some c =>
        rcases hrec : extractRanges C ((C.path r, c) :: fs) rest with ⟨fs2, cs2, res2⟩
        cases res2 with
        | ok outs2 => rw [extractRanges_cons_ok_ok h1 h2 hrec]; simp
        | error e =>
          rw [extractRanges_cons_ok_err h1 h2 hrec]
          have := ih ((C.path r, c) :: fs) se of
          rw [hrec] at this
          simpa using this

/-! ### clip_url plumbing -/

theorem clip_url_run {env : Env} (hff : env.ffmpeg_on_path = true)
    (hyt : env.ytdlp_on_path = true) {qh : Int} (hq : 0 < qh)
    (fs : FS) (ranges : List (Int × Int)) (outdir : String) (reencode : Bool) (fmt : String) :
    clip_url env fs ranges outdir reencode fmt qh =
      ⟨(clip_job env fs ranges outdir reencode fmt qh).result,
       (clip_job env fs ranges outdir reencode fmt qh).fs,
       (clip_job env fs ranges outdir reencode fmt qh).calls,
       (clip_job env fs ranges outdir reencode fmt qh).downloadAttempted,
       true, true⟩ := by
  rw [clip_url]
  simp only [hff, hyt, if_true, List.append_nil, if_pos rfl]
  rw [if_neg (by omega)]

theorem clip_url_missing_dep {env : Env} (h : ¬ (env.ffmpeg_on_path = true ∧ env.ytdlp_on_path = true))
    (fs : FS) (ranges : List (Int × Int)) (outdir : String) (reencode : Bool) (fmt : String)
    (qh : Int) :
    (clip_url env fs ranges outdir reencode fmt qh).workspaceCreated = false ∧
    (clip_url env fs ranges outdir reencode fmt qh).fs = fs ∧
    (clip_url env fs ranges outdir reencode fmt qh).calls = [] := by
  rw [clip_url]
  cases hf : env.ffmpeg_on_path <;> cases hy : env.ytdlp_on_path <;>
    simp_all

theorem clip_job_fetchFail {env : Env} (hm : env.metadata = .fetchFail) (fs : FS)
    (ranges : List (Int × Int)) (outdir : String) (reencode : Bool) (fmt : String) (qh : Int) :
    clip_job env fs ranges outdir reencode fmt qh =
      ⟨.error .metadataFetchFailed, fs, [], false⟩ := by
  rw [clip_job, hm]

theorem clip_job_parseFail {env : Env} (hm : env.metadata = .parseFail) (fs : FS)
    (ranges : List (Int × Int)) (outdir : String) (reencode : Bool) (fmt : String) (qh : Int) :
    clip_job env fs ranges outdir reencode fmt qh =
      ⟨.error .metadataParseFailed, fs, [], false⟩ := by
  rw [clip_job, hm]

theorem clip_job_qual_re {env : Env} {formats : List Fmt} (hm : env.metadata = .ok formats)
    {qh : Int} (hnot : qh ∉ (_available_heights formats).2) (fs : FS)
    (ranges : List (Int × Int)) (outdir : String) (fmt : String) :
    clip_job env fs ranges outdir true fmt qh =
      ⟨.error (.qualityUnavailable (_available_heights formats).2), fs, [], false⟩ := by
  rw [clip_job, hm]
  simp only [eq_self_iff_true, if_true]
  rw [if_neg hnot]

theorem clip_job_qual_fast {env : Env} {formats : List Fmt} (hm : env.metadata = .ok formats)
    {qh : Int} (hnot : qh ∉ (_available_heights formats).1) (fs : FS)
    (ranges : List (Int × Int)) (outdir : String) (fmt : String) :
    clip_job env fs ranges outdir false fmt qh =
      ⟨.error (.qualityUnavailableFastPath (_available_heights formats).1
          (_available_heights formats).2), fs, [], false⟩ := by
  rw [clip_job, hm]
  simp only [Bool.false_eq_true, if_false]
  rw [if_neg hnot]

theorem clip_job_download_attempted {env : Env} {formats : List Fmt}
    (hm : env.metadata = .ok formats) {qh : Int} {reencode : Bool}
    (hav : qh ∈ (if reencode then (_available_heights formats).2 else (_available_heights formats).1))
    (fs : FS) (ranges : List (Int × Int)) (outdir : String) (fmt : String) :
    (clip_job env fs ranges outdir reencode fmt qh).downloadAttempted = true := by
  rw [clip_job, hm]
  simp only [hav, if_true]
  cases hd : env.download (_format_selector qh reencode) with
  | none => rfl
  | some files =>
    simp only []
    cases hsc : sourceCandidates files with
    | nil => rfl
    | cons src rest =>
      simp only []
      by_cases hmm : reencode = false ∧ sourceExt src ≠ fmt
      · rw [if_pos hmm]
      · rw [if_neg hmm]

theorem clip_job_mismatch {env : Env} {formats : List Fmt} (hm : env.metadata = .ok formats)
    {qh : Int} (hav : qh ∈ (_available_heights formats).1) {files : List String}
    {src : String} {rest : List String} {fmt : String}
    (hdl : env.download (_format_selector qh false) = some files)
    (hsc : sourceCandidates files = src :: rest) (hmm : sourceExt src ≠ fmt)
    (fs : FS) (ranges : List (Int × Int)) (outdir : String) :
    clip_job env fs ranges outdir false fmt qh =
      ⟨.error (.outputFormatMismatch (sourceExt src) fmt), fs, [], true⟩ := by
  rw [clip_job, hm]
  simp only [Bool.false_eq_true, if_false, hav, if_true, hdl, hsc]
  rw [if_pos ⟨trivial, hmm⟩]

theorem clip_job_to_loop {env : Env} {formats : List Fmt} (hm : env.metadata = .ok formats)
    {qh : Int} {reencode : Bool}
    (hav : qh ∈ (if reencode then (_available_heights formats).2 else (_available_heights formats).1))
    {files : List String} {src : String} {rest : List String} {fmt : String}
    (hdl : env.download (_format_selector qh reencode) = some files)
    (hsc : sourceCandidates files = src :: rest)
    (hfok : reencode = true ∨ sourceExt src = fmt)
    (fs : FS) (ranges : List (Int × Int)) (outdir : String) :
    clip_job env fs ranges outdir reencode fmt qh =
      ⟨(extractRanges ⟨env.ffmpeg, src, reencode, outdir, env.run_stamp, fmt⟩ fs ranges).2.2,
       (extractRanges ⟨env.ffmpeg, src, reencode, outdir, env.run_stamp, fmt⟩ fs ranges).1,
       (extractRanges ⟨env.ffmpeg, src, reencode, outdir, env.run_stamp, fmt⟩ fs ranges).2.1,
       true⟩ := by
  have hcond : ¬ (reencode = false ∧ sourceExt src ≠ fmt) := by
    rintro ⟨h1, h2⟩
    rcases hfok with hre | hext
    · rw [hre] at h1; cases h1
    · exact h2 hext
  rw [clip_job, hm]
  simp only [hav, if_true, hdl, hsc]
  rw [if_neg hcond]

theorem clip_job_keys {env : Env} {fs : FS} {ranges : List (Int × Int)} {outdir : String}
    {reencode : Bool} {fmt : String} {qh : Int} (p : String)
    (hp : p ∈ ((clip_job env fs ranges outdir reencode fmt qh).fs).map Prod.fst) :
    p ∈ fs.map Prod.fst ∨ ∃ r ∈ ranges, p = artifactPath outdir env.run_stamp fmt r := by
  rw [clip_job] at hp
  rcases hmc : env.metadata with _ | _ | formats
  · rw [hmc] at hp
    exact Or.inl hp
  · rw [hmc] at hp
    exact Or.inl hp
  · rw [hmc] at hp
    simp only [] at hp
    by_cases hav : qh ∈
        (if reencode then (_available_heights formats).2 else (_available_heights formats).1)
    · rw [if_pos hav] at hp
      rcases hd : env.download (_format_selector qh reencode) with _ | files
      · rw [hd] at hp
        exact Or.inl hp
      · rw [hd] at hp
        simp only [] at hp
        rcases hsc : sourceCandidates files with _ | ⟨src, rest⟩
        · rw [hsc] at hp
          exact Or.inl hp
        · rw [hsc] at hp
          simp only [] at hp
          by_cases hmm2 : reencode = false ∧ sourceExt src ≠ fmt
          · rw [if_pos hmm2] at hp
            exact Or.inl hp
          · rw [if_neg hmm2] at hp
            rcases hrec : extractRanges ⟨env.ffmpeg, src, reencode, outdir, env.run_stamp, fmt⟩
              fs ranges with ⟨fs2, cs2, res2⟩
            rw [hrec] at hp
            have hkeys := extractRanges_keys
              ⟨env.ffmpeg, src, reencode, outdir, env.run_stamp, fmt⟩ ranges fs p
            rw [hrec] at hkeys
            rcases hkeys hp with hin | hin
            · exact Or.inl hin
            · rcases List.mem_map.mp hin with ⟨r, hr, hpr⟩
              exact Or.inr ⟨r, hr, hpr.symm⟩
    · rw [if_neg hav] at hp
      rcases hre : reencode with _ | _ <;> rw [hre] at hp <;> exact Or.inl hp

/-! ### Claims C2 and C4 -/

/-- C2: `workspaceCleaned` always coincides with `workspaceCreated` (the
`with TemporaryDirectory` block's try/finally semantics); once the
dependency and quality checks pass the workspace is created and cleaned
on every path — metadata failure, quality refusal, download failure,
format mismatch, extraction failure and success are all covered by the
universally quantified oracles — and the output directory only ever
gains clip artifacts, never the downloaded source file. -/
theorem claim_C2_workspace :
    (∀ (env : Env) (fs : FS) (ranges : List (Int × Int)) (outdir : String) (reencode : Bool)
       (fmt : String) (qh : Int),
      (clip_url env fs ranges outdir reencode fmt qh).workspaceCleaned =
        (clip_url env fs ranges outdir reencode fmt qh).workspaceCreated) ∧
    (∀ (env : Env) (fs : FS) (ranges : List (Int × Int)) (outdir : String) (reencode : Bool)
       (fmt : String) (qh : Int),
      env.ffmpeg_on_path = true → env.ytdlp_on_path = true → 0 < qh →
      (clip_url env fs ranges outdir reencode fmt qh).workspaceCreated = true ∧
      (clip_url env fs ranges outdir reencode fmt qh).workspaceCleaned = true ∧
      (∀ p, p ∈ ((clip_url env fs ranges outdir reencode fmt qh).fs).map Prod.fst →
        p ∈ fs.map Prod.fst ∨ ∃ r ∈ ranges, p = artifactPath outdir env.run_stamp fmt r)) := by
  constructor
  · intro env fs ranges outdir reencode fmt qh
    rw [clip_url]
    by_cases h1 : ((if env.ffmpeg_on_path then [] else [ffmpegS]) ++
        (if env.ytdlp_on_path then [] else [ytdlpS])) = ([] : List String)
    · rw [if_pos h1]
      by_cases h2 : qh ≤ 0
      · rw [if_pos h2]
      · rw [if_neg h2]
    · rw [if_neg h1]
  · intro env fs ranges outdir reencode fmt qh hff hyt hq
    rw [clip_url_run hff hyt hq]
    exact ⟨rfl, rfl, fun p hp => clip_job_keys p hp⟩

/-- Witness for C2 on a concrete successful run. -/
theorem claim_C2_witness :
    (clip_url envOkW [] [(10, 30)] outDirS false mp4S 720).workspaceCreated = true ∧
    (clip_url envOkW [] [(10, 30)] outDirS false mp4S 720).workspaceCleaned = true :=
  ⟨(claim_C2_workspace.2 envOkW [] [(10, 30)] outDirS false mp4S 720 rfl rfl (by decide)).1,
   (claim_C2_workspace.2 envOkW [] [(10, 30)] outDirS false mp4S 720 rfl rfl (by decide)).2.1⟩

/-- C4: with the metadata resolved, the comparison set is the any-codec
heights when re-encoding and the fast-path heights otherwise; a missing
height stops the job before any download or extraction —
`QualityUnavailable` carrying the any-codec set in re-encode mode,
`QualityUnavailableFastPath` carrying both sets in fast-path mode, with
no engine call, no download attempt, and an untouched output directory —
while a present height proceeds to the download; on the example
inventory, 1080 fails in fast-path mode and proceeds in re-encode
mode. -/
theorem claim_C4_quality_gate :
    (∀ (env : Env) (fs : FS) (ranges : List (Int × Int)) (outdir : String) (fmt : String)
       (qh : Int) (formats : List Fmt),
      env.ffmpeg_on_path = true → env.ytdlp_on_path = true → 0 < qh →
      env.metadata = .ok formats →
      (qh ∉ (_available_heights formats).2 →
        clip_url env fs ranges outdir true fmt qh =
          ⟨.error (.qualityUnavailable (_available_heights formats).2),
           fs, [], false, true, true⟩) ∧
      (qh ∉ (_available_heights formats).1 →
        clip_url env fs ranges outdir false fmt qh =
          ⟨.error (.qualityUnavailableFastPath (_available_heights formats).1
              (_available_heights formats).2), fs, [], false, true, true⟩)) ∧
    (∀ (env : Env) (fs : FS) (ranges : List (Int × Int)) (outdir : String) (reencode : Bool)
       (fmt : String) (qh : Int) (formats : List Fmt),
      env.ffmpeg_on_path = true → env.ytdlp_on_path = true → 0 < qh →
      env.metadata = .ok formats →
      qh ∈ (if reencode then (_available_heights formats).2 else (_available_heights formats).1) →
      (clip_url env fs ranges outdir reencode fmt qh).downloadAttempted = true) ∧
    clip_url envOkW [] [(10, 30)] outDirS false mp4S 1080 =
      ⟨.error (.qualityUnavailableFastPath [720] [480, 720, 1080]), [], [], false, true, true⟩ ∧
    (clip_url envOkW [] [(10, 30)] outDirS true mp4S 1080).downloadAttempted = true := by
  refine ⟨?_, ?_, ?_, ?_⟩
  · intro env fs ranges outdir fmt qh formats hff hyt hq hm
    constructor
    · intro hnot
      rw [clip_url_run hff hyt hq, clip_job_qual_re hm hnot]
    · intro hnot
      rw [clip_url_run hff hyt hq, clip_job_qual_fast hm hnot]
  · intro env fs ranges outdir reencode fmt qh formats hff hyt hq hm hav
    rw [clip_url_run hff hyt hq]
    exact clip_job_download_attempted hm hav fs ranges outdir fmt
  · rfl
  · rfl

/-- Witness for C4 at the example inventory and height 1080. -/
theorem claim_C4_witness :
    clip_url envOkW [] [] outDirS false mp4S 1080 =
      ⟨.error (.qualityUnavailableFastPath (_available_heights exampleFormats).1
          (_available_heights exampleFormats).2), [], [], false, true, true⟩ ∧
    (clip_url envOkW [] [] outDirS true mp4S 1080).downloadAttempted = true :=
  ⟨(claim_C4_quality_gate.1 envOkW [] [] outDirS mp4S 1080 exampleFormats rfl rfl (by decide)
      rfl).2 (by decide),
   claim_C4_quality_gate.2.1 envOkW [] [] outDirS true mp4S 1080 exampleFormats rfl rfl
     (by decide) rfl (by decide)⟩

/-! ### Claim C6 -/

theorem clip_job_ne_mismatch_re (env : Env) (fs : FS) (ranges : List (Int × Int))
    (outdir : String) (fmt : String) (qh : Int) (se of : String) :
    (clip_job env fs ranges outdir true fmt qh).result ≠
      .error (.outputFormatMismatch se of) := by
  intro hcon
  rw [clip_job] at hcon
  rcases hmc : env.metadata with _ | _ | formats <;> rw [hmc] at hcon
  · simp at hcon
  · simp at hcon
  · simp only [eq_self_iff_true, if_true] at hcon
    by_cases hav : qh ∈ (_available_heights formats).2
    · rw [if_pos hav] at hcon
      rcases hd : env.download (_format_selector qh true) with _ | files <;> rw [hd] at hcon
      · simp at hcon
      · simp only [] at hcon
        rcases hsc : sourceCandidates files with _ | ⟨src, rest⟩ <;> rw [hsc] at hcon
        · simp at hcon
        · simp only [] at hcon
          rw [if_neg (by simp)] at hcon
          rcases hrec : extractRanges ⟨env.ffmpeg, src, true, outdir, env.run_stamp, fmt⟩
            fs ranges with ⟨fs2, cs2, res2⟩
          rw [hrec] at hcon
          have hno := extractRanges_no_mismatch
            ⟨env.ffmpeg, src, true, outdir, env.run_stamp, fmt⟩ ranges fs se of
          rw [hrec] at hno
          exact hno hcon
    · rw [if_neg hav] at hcon
      simp at hcon

theorem clip_url_ne_mismatch_re (env : Env) (fs : FS) (ranges : List (Int × Int))
    (outdir : String) (fmt : String) (qh : Int) (se of : String) :
    (clip_url env fs ranges outdir true fmt qh).result ≠
      .error (.outputFormatMismatch se of) := by
  intro hcon
  rw [clip_url] at hcon
  by_cases h1 : ((if env.ffmpeg_on_path then [] else [ffmpegS]) ++
      (if env.ytdlp_on_path then [] else [ytdlpS])) = ([] : List String)
  · rw [if_pos h1] at hcon
    by_cases h2 : qh ≤ 0
    · rw [if_pos h2] at hcon
      simp at hcon
    · rw [if_neg h2] at hcon
      exact clip_job_ne_mismatch_re env fs ranges outdir fmt qh se of hcon
  · rw [if_neg h1] at hcon
    simp at hcon

/-- C6: in fast-path mode, once the (H.264/mp4-constrained) download has
produced a source file whose container extension differs from the
requested output format, the job fails with OutputFormatMismatch, makes
no engine call and leaves the output directory untouched; in re-encode
mode the result is never OutputFormatMismatch, whatever the oracles
return. -/
theorem claim_C6_output_format :
    (∀ (env : Env) (fs : FS) (ranges : List (Int × Int)) (outdir : String) (fmt : String)
       (qh : Int) (formats : List Fmt) (files : List String) (src : String)
       (rest : List String),
      env.ffmpeg_on_path = true → env.ytdlp_on_path = true → 0 < qh →
      env.metadata = .ok formats → qh ∈ (_available_heights formats).1 →
      env.download (_format_selector qh false) = some files →
      sourceCandidates files = src :: rest →
      sourceExt src ≠ fmt →
      clip_url env fs ranges outdir false fmt qh =
        ⟨.error (.outputFormatMismatch (sourceExt src) fmt), fs, [], true, true, true⟩) ∧
    (∀ (env : Env) (fs : FS) (ranges : List (Int × Int)) (outdir : String) (fmt : String)
       (qh : Int) (se of : String),
      (clip_url env fs ranges outdir true fmt qh).result ≠
        .error (.outputFormatMismatch se of)) := by
  constructor
  · intro env fs ranges outdir fmt qh formats files src rest hff hyt hq hm hav hdl hsc hmm
    rw [clip_url_run hff hyt hq, clip_job_mismatch hm hav hdl hsc hmm]
  · exact clip_url_ne_mismatch_re

/-- Witness for C6: the example world delivers an mp4 source while webm
output is requested. -/
theorem claim_C6_witness :
    clip_url envOkW [] [(10, 30)] outDirS false webmS 720 =
      ⟨.error (.outputFormatMismatch (sourceExt srcFileS) webmS), [], [], true, true, true⟩ ∧
    (clip_url envOkW [] [(10, 30)] outDirS true webmS 720).result ≠
      .error (.outputFormatMismatch mp4S webmS) :=
  ⟨claim_C6_output_format.1 envOkW [] [(10, 30)] outDirS webmS 720 exampleFormats [srcFileS]
      srcFileS [] rfl rfl (by decide) rfl (by decide) rfl rfl (by decide),
   claim_C6_output_format.2 envOkW [] [(10, 30)] outDirS webmS 720 mp4S webmS⟩

/-! ### Claim C1 -/

/-- C1: once a job reaches the extraction loop, every artifact path is
the output directory joined with
`clip_<start>_<end>_<runStamp>.<outputFormat>` built from the single
per-job run stamp; a fully successful run returns exactly the per-range
paths in input order, with one engine call per range in that order; and
if the first failing range is the k-th one, the job fails with that
range's error, no range after the k-th is attempted (the call list stops
there), and the artifacts of the earlier ranges are still present in the
output directory. -/
theorem claim_C1_extraction_pipeline :
    ∀ (env : Env) (fs : FS) (ranges : List (Int × Int)) (outdir : String) (reencode : Bool)
      (fmt : String) (qh : Int) (formats : List Fmt) (files : List String) (src : String)
      (rest : List String) (C : LoopCtx) (J : JobResult),
      env.ffmpeg_on_path = true → env.ytdlp_on_path = true → 0 < qh →
      env.metadata = .ok formats →
      qh ∈ (if reencode then (_available_heights formats).2 else (_available_heights formats).1) →
      env.download (_format_selector qh reencode) = some files →
      sourceCandidates files = src :: rest →
      (reencode = true ∨ sourceExt src = fmt) →
      C = ⟨env.ffmpeg, src, reencode, outdir, env.run_stamp, fmt⟩ →
      J = clip_url env fs ranges outdir reencode fmt qh →
      (∀ r : Int × Int, C.path r =
        outdir ++ slashS ++ (clipPre ++ toString r.1 ++ undS ++ toString r.2 ++ undS ++
          env.run_stamp ++ dotS ++ fmt)) ∧
      (∀ outs, J.result = .ok outs → outs = ranges.map C.path ∧ J.calls = ranges.map C.call) ∧
      (∀ k (hk : k < ranges.length),
        (∀ j (hj : j < k),
          C.stepOk (C.after fs (ranges.take j)) (ranges.get ⟨j, Nat.lt_trans hj hk⟩)) →
        ¬ C.stepOk (C.after fs (ranges.take k)) (ranges.get ⟨k, hk⟩) →
        J.result = .error (C.stepErr (C.after fs (ranges.take k)) (ranges.get ⟨k, hk⟩)) ∧
        J.calls = (ranges.take k).map C.call ++
          C.stepFailCalls (C.after fs (ranges.take k)) (ranges.get ⟨k, hk⟩) ∧
        (∀ j (hj : j < k),
          C.path (ranges.get ⟨j, Nat.lt_trans hj hk⟩) ∈ J.fs.map Prod.fst)) := by
  intro env fs ranges outdir reencode fmt qh formats files src rest C J
    hff hyt hq hm hav hdl hsc hfok hC hJ
  subst hC
  subst hJ
  rw [clip_url_run hff hyt hq, clip_job_to_loop hm hav hdl hsc hfok]
  refine ⟨fun r => rfl, ?_, ?_⟩
  · intro outs houts
    rcases hrec : extractRanges ⟨env.ffmpeg, src, reencode, outdir, env.run_stamp, fmt⟩
      fs ranges with ⟨fs2, cs2, res2⟩
    have hres : res2 = .ok outs := by
      rw [hrec] at houts
      exact houts
    subst hres
    obtain ⟨ho, hc, hf⟩ := extractRanges_ok_shape _ ranges fs fs2 cs2 outs hrec
    exact ⟨ho, hc⟩
  · intro k hk hok hfail
    have hfailEq := extractRanges_fail _ ranges fs k hk hok hfail
    refine ⟨?_, ?_, ?_⟩
    · show (extractRanges ⟨env.ffmpeg, src, reencode, outdir, env.run_stamp, fmt⟩
        fs ranges).2.2 = _
      rw [hfailEq]
    · show (extractRanges ⟨env.ffmpeg, src, reencode, outdir, env.run_stamp, fmt⟩
        fs ranges).2.1 = _
      rw [hfailEq]
    · intro j hj
      show _ ∈ ((extractRanges ⟨env.ffmpeg, src, reencode, outdir, env.run_stamp, fmt⟩
        fs ranges).1).map Prod.fst
      rw [hfailEq]
      obtain ⟨hl, heng⟩ := hok j hj
      have hmem := artifact_in_after
        (⟨env.ffmpeg, src, reencode, outdir, env.run_stamp, fmt⟩ : LoopCtx)
        ranges fs j (Nat.lt_trans hj hk) heng
      have hkj : j + 1 + (k - (j + 1)) = k := by omega
      have hsplit : ranges.take k =
          ranges.take (j + 1) ++ ((ranges.drop (j + 1)).take (k - (j + 1))) := by
        rw [← List.take_add, hkj]
      rw [hsplit, after_append]
      exact after_keys_mono _ _ _ _ hmem

/-- Witness for C1: the two-range job in the example world produces the
two expected artifact paths, in order. -/
theorem claim_C1_witness :
    [outClip1S, outClip2S] =
      [((10 : Int), (30 : Int)), (45, 50)].map
        (LoopCtx.path ⟨envOkW.ffmpeg, srcFileS, false, outDirS, stampS, mp4S⟩) ∧
    (clip_url envOkW [] [(10, 30), (45, 50)] outDirS false mp4S 720).calls =
      [((10 : Int), (30 : Int)), (45, 50)].map
        (LoopCtx.call ⟨envOkW.ffmpeg, srcFileS, false, outDirS, stampS, mp4S⟩) :=
  (claim_C1_extraction_pipeline envOkW [] [(10, 30), (45, 50)] outDirS false mp4S 720
      exampleFormats [srcFileS] srcFileS []
      ⟨envOkW.ffmpeg, srcFileS, false, outDirS, stampS, mp4S⟩
      (clip_url envOkW [] [(10, 30), (45, 50)] outDirS false mp4S 720)
      rfl rfl (by decide) rfl (by decide) rfl rfl (Or.inr rfl) rfl rfl).2.1
    [outClip1S, outClip2S] rfl
